import Mathlib

/-!
# TGAFile: a shallow embedding of `TgaFile.cpp` / `TgaFile.h`

The development models the Truevision TGA reader of the repository:

* the C stdio calls the reader makes (`fseek`, `fread`, `ftell`) on a file
  given as a list of bytes with a read position;
* `TgaFile::ReadFooter`, the constructor `TgaFile::TgaFile` (called `Open`
  in the specification), and `TgaFile::Read`;
* the in-place pixel reordering (`SwapPixel`, `SwapV`, `SwapH`, `SwapHV`,
  `ReorderN`, `TgaFile::Reorder`) on a byte buffer with checked accesses.

Integer model.  The source is written for the Microsoft compiler
(`unsigned __int32`, `struct _iobuf`), so `int` and `long` are 32-bit
two's-complement and `size_t` is 32-bit.  `int8`/`int16` are the signed
counterparts of the `uint8`/`uint16` types the same file uses.  Values are
kept in `Nat`/`Int` and reduced explicitly where the program converts.
-/

namespace TGA

/-! ## Bytes and integer conversions -/

/-- One byte of a file or of a pixel buffer. -/
abbrev Byte := Fin 256

/-- Unsigned little-endian value of a byte block, as `fread` into an
unsigned integer variable leaves it. -/
def leNat : List Byte → Nat
  | [] => 0
  | b :: bs => b.val + 256 * leNat bs

/-- Reinterpretation of an 8-bit pattern as `int8`. -/
def toInt8 (n : Nat) : Int :=
  if n % 256 < 128 then ((n % 256 : Nat) : Int) else ((n % 256 : Nat) : Int) - 256

/-- Reinterpretation of a 16-bit pattern as `int16`. -/
def toInt16 (n : Nat) : Int :=
  if n % 65536 < 32768 then ((n % 65536 : Nat) : Int) else ((n % 65536 : Nat) : Int) - 65536

/-- Conversion to a 32-bit signed `int` / `long` (two's complement). -/
def toInt32 (x : Int) : Int :=
  (x + 2147483648) % 4294967296 - 2147483648

/-- Conversion to a 32-bit unsigned value (`unsigned __int32`, `size_t`). -/
def toUInt32 (x : Int) : Nat :=
  (x % 4294967296).toNat

/-! ## The stdio model -/

/-- An open binary stream: the file's bytes and the read position. -/
structure FILE where
  data : List Byte
  pos : Nat
deriving DecidableEq, Repr

/-- The `origin` argument of `fseek`. -/
inductive Origin where
  | SEEK_SET
  | SEEK_CUR
  | SEEK_END
deriving DecidableEq, Repr

/-- Result of `fopen( sFilename, "rb" )` on an existing file. -/
def fopen (contents : List Byte) : FILE :=
  { data := contents, pos := 0 }

/-- Model of `fseek`: a target before the start of the file is an error
(nonzero result, position unchanged); any other target, also one past the
end of the file, is accepted. -/
def fseek (fp : FILE) (offset : Int) (origin : Origin) : Int × FILE :=
  let base : Int :=
    match origin with
    | Origin.SEEK_SET => 0
    | Origin.SEEK_CUR => (fp.pos : Int)
    | Origin.SEEK_END => (fp.data.length : Int)
  if base + offset < 0 then (-1, fp)
  else (0, { fp with pos := (base + offset).toNat })

/-- Model of `ftell`, a `long`. -/
def ftell (fp : FILE) : Int :=
  toInt32 (fp.pos : Int)

/-- Model of `fread( buf, size, count, fp )`: the bytes transferred, the
number of complete items read, and the stream afterwards.  When `size` or
`count` is zero nothing is transferred and the result is zero. -/
def fread (size count : Nat) (fp : FILE) : List Byte × Nat × FILE :=
  let bytes := (fp.data.drop fp.pos).take (size * count)
  let items := if size = 0 then 0 else bytes.length / size
  (bytes, items, { fp with pos := fp.pos + bytes.length })

/-- Effect of `fread` on the caller's buffer: the transferred bytes replace
the start of the buffer. -/
def storeBuf (buf bytes : List Byte) : List Byte :=
  bytes ++ buf.drop bytes.length

/-- Model of `strcmp` on byte strings; the end of a list counts as the
terminating NUL. -/
def strcmp : List Byte → List Byte → Int
  | [], [] => 0
  | [], b :: _ => if b = 0 then 0 else -1
  | a :: _, [] => if a = 0 then 0 else 1
  | a :: as, b :: bs =>
    if a = b then (if a = 0 then 0 else strcmp as bs)
    else if a < b then -1 else 1

/-! ## Constants of `TgaFile.cpp` -/

/-- Size of the signature. -/
def SIGNATURE_SIZE : Nat := 18

/-- Offset from the end of the id to the start of the image data. -/
def OFFSET_IMAGE_DATA : Nat := 18

/-- Offset to the attribute type in the extension area. -/
def OFFSET_ATTRIBUTE_TYPE : Nat := 494

/-- Offset to the signature from the end of the file. -/
def OFFSET_SIGNATURE : Nat := SIGNATURE_SIZE

/-- Offset to the footer data from the end of the file. -/
def OFFSET_FOOTER : Nat := OFFSET_SIGNATURE + 8

/-- The string literal `"TRUEVISION-XFILE."` (17 characters). -/
def signatureText : List Byte :=
  [84, 82, 85, 69, 86, 73, 83, 73, 79, 78, 45, 88, 70, 73, 76, 69, 46]

/-! ## Enumerations of `TgaFile.h` -/

def IMAGE_NOIMAGE : Nat := 0
def IMAGE_COLORMAPPED : Nat := 1
def IMAGE_TRUECOLOR : Nat := 2
def IMAGE_GREYSCALE : Nat := 3
def IMAGE_RLECOLORMAPPED : Nat := 9
def IMAGE_RLETRUECOLOR : Nat := 10
def IMAGE_RLEGREYSCALE : Nat := 11

def ALPHA_UNSPECIFIED : Int := -1
def ALPHA_NONE : Int := 0
def ALPHA_UNDEFINED : Int := 1
def ALPHA_PAD : Int := 2
def ALPHA_PRESENT : Int := 3
def ALPHA_PREMULTIPLIED : Int := 4

/-- The order of the pixels (location in the image of the first pixel in
the file). -/
inductive PixelOrder where
  | ORDER_BOTTOMLEFT
  | ORDER_BOTTOMRIGHT
  | ORDER_TOPLEFT
  | ORDER_TOPRIGHT
deriving DecidableEq, Repr

/-- Numeric value of a `PixelOrder` enumerator. -/
def PixelOrder.toNat : PixelOrder → Nat
  | PixelOrder.ORDER_BOTTOMLEFT => 0
  | PixelOrder.ORDER_BOTTOMRIGHT => 1
  | PixelOrder.ORDER_TOPLEFT => 2
  | PixelOrder.ORDER_TOPRIGHT => 3

/-- The cast `static_cast< PixelOrder >( n )` for a two-bit value. -/
def toPixelOrder (n : Nat) : PixelOrder :=
  match n with
  | 0 => PixelOrder.ORDER_BOTTOMLEFT
  | 1 => PixelOrder.ORDER_BOTTOMRIGHT
  | 2 => PixelOrder.ORDER_TOPLEFT
  | _ => PixelOrder.ORDER_TOPRIGHT

/-- Format version used by the file. -/
inductive Version where
  | VERSION_1
  | VERSION_2
deriving DecidableEq, Repr

/-! ## The `TgaFile` object -/

/-- Data members of `class TgaFile`. -/
structure TgaFile where
  m_Id : List Byte
  m_ImageType : Nat
  m_FirstColorMapEntry : Int
  m_ColorMapSize : Int
  m_XOrigin : Int
  m_YOrigin : Int
  m_Width : Int
  m_Height : Int
  m_Depth : Int
  m_ColorMapEntrySize : Int
  m_AlphaDepth : Int
  m_PixelOrder : PixelOrder
  m_AlphaType : Int
  m_Version : Version
  m_ImageDataSize : Int
  m_ColorMapType : Int
  m_Fp : FILE
deriving DecidableEq, Repr

/-- Model of `TgaFile::ReadFooter`.  The two out-parameters are passed in
with their prior contents and returned; they are written only by the two
offset reads. -/
def TgaFile.ReadFooter (m_Fp : FILE) (pExtensionOffset pDirectoryOffset : Nat) :
    Version × Nat × Nat × FILE :=
  let m_Fp := (fseek m_Fp (-(OFFSET_SIGNATURE : Int)) Origin.SEEK_END).2
  let (signature, itemsRead, m_Fp) := fread SIGNATURE_SIZE 1 m_Fp
  if itemsRead ≠ 1 then
    (Version.VERSION_1, pExtensionOffset, pDirectoryOffset, m_Fp)
  else
    let signature := signature.set (SIGNATURE_SIZE - 1) 0
    if strcmp signature signatureText ≠ 0 then
      (Version.VERSION_1, pExtensionOffset, pDirectoryOffset, m_Fp)
    else
      let m_Fp := (fseek m_Fp (-(OFFSET_FOOTER : Int)) Origin.SEEK_END).2
      let (ext, itemsRead, m_Fp) := fread 4 1 m_Fp
      if itemsRead ≠ 1 then
        (Version.VERSION_1, pExtensionOffset, pDirectoryOffset, m_Fp)
      else
        let pExtensionOffset := leNat ext
        let (dev, itemsRead, m_Fp) := fread 4 1 m_Fp
        if itemsRead ≠ 1 then
          (Version.VERSION_1, pExtensionOffset, pDirectoryOffset, m_Fp)
        else
          let pDirectoryOffset := leNat dev
          (Version.VERSION_2, pExtensionOffset, pDirectoryOffset, m_Fp)

/-- The expression `m_ColorMapSize * ( ( m_ColorMapEntrySize + 7 ) / 8 )`
of the constructor and of `Read`, in `int` arithmetic (the division
truncates toward zero). -/
def colorMapBytes (m_ColorMapSize m_ColorMapEntrySize : Int) : Int :=
  m_ColorMapSize * Int.tdiv (m_ColorMapEntrySize + 7) 8

/-- One `fread` of a single item of `size` bytes together with the check
that follows every such read in the constructor,
`if ( itemsRead != 1 ) { fclose( m_Fp ); throw ConstructorFailedException(); }`:
the bytes read and the stream afterwards, or `none` for the exception. -/
def freadOrThrow (size : Nat) (m_Fp : FILE) : Option (List Byte × FILE) :=
  if (fread size 1 m_Fp).2.1 ≠ 1 then none
  else some ((fread size 1 m_Fp).1, (fread size 1 m_Fp).2.2)

/-- Model of the constructor `TgaFile::TgaFile( char const * sFilename )`
(the operation `Open` of the specification) on an existing file with the
given contents.  `none` stands for `ConstructorFailedException`. -/
def TgaFile.Open (sFilename : List Byte) : Option TgaFile :=
  let m_Fp := fopen sFilename
  -- Look for the footer
  let ft := TgaFile.ReadFooter m_Fp 0 0
  let m_Version := ft.1
  let extensionOffset := ft.2.1
  let developerOffest := ft.2.2.1
  let m_Fp := ft.2.2.2
  -- Get the alpha type data
  match
    (if m_Version = Version.VERSION_2 ∧ extensionOffset ≠ 0 then
      (freadOrThrow 1
        (fseek m_Fp (toInt32 ((extensionOffset + OFFSET_ATTRIBUTE_TYPE : Nat) : Int))
          Origin.SEEK_SET).2).bind
        (fun r => some ((leNat r.1 : Int), r.2))
    else some (ALPHA_UNSPECIFIED, m_Fp)) with
  | none => none
  | some alpha =>
  let m_AlphaType := alpha.1
  -- Restore the pointer to the beginning of the file
  let m_Fp := (fseek alpha.2 0 Origin.SEEK_SET).2
  -- Read the ID field length
  match freadOrThrow 1 m_Fp with
  | none => none
  | some r =>
  let idFieldLength := leNat r.1
  -- Read color map type
  match freadOrThrow 1 r.2 with
  | none => none
  | some r =>
  let m_ColorMapType := toInt8 (leNat r.1)
  -- Get the image type (only 1, 2, 9, and 10 are supported)
  match freadOrThrow 1 r.2 with
  | none => none
  | some r =>
  let imageType := leNat r.1
  if imageType ≠ IMAGE_COLORMAPPED ∧ imageType ≠ IMAGE_TRUECOLOR ∧
      imageType ≠ IMAGE_RLECOLORMAPPED ∧ imageType ≠ IMAGE_RLETRUECOLOR then none else
  let m_ImageType := imageType
  -- Read the color map specification
  match freadOrThrow 2 r.2 with
  | none => none
  | some r =>
  let m_FirstColorMapEntry := toInt16 (leNat r.1)
  match freadOrThrow 2 r.2 with
  | none => none
  | some r =>
  let m_ColorMapSize := toInt16 (leNat r.1)
  match freadOrThrow 1 r.2 with
  | none => none
  | some r =>
  let m_ColorMapEntrySize := toInt8 (leNat r.1)
  -- Read the image specification
  match freadOrThrow 2 r.2 with
  | none => none
  | some r =>
  let m_XOrigin := toInt16 (leNat r.1)
  match freadOrThrow 2 r.2 with
  | none => none
  | some r =>
  let m_YOrigin := toInt16 (leNat r.1)
  match freadOrThrow 2 r.2 with
  | none => none
  | some r =>
  let m_Width := toInt16 (leNat r.1)
  match freadOrThrow 2 r.2 with
  | none => none
  | some r =>
  let m_Height := toInt16 (leNat r.1)
  match freadOrThrow 1 r.2 with
  | none => none
  | some r =>
  let m_Depth := toInt8 (leNat r.1)
  match freadOrThrow 1 r.2 with
  | none => none
  | some r =>
  let imageDescriptor := leNat r.1
  let m_AlphaDepth : Int := ((imageDescriptor &&& 0xf : Nat) : Int)
  let m_PixelOrder := toPixelOrder ((imageDescriptor >>> 4) &&& 0x3)
  -- Read the image ID if there is one
  match
    (if idFieldLength > 0 then
      (if (fread 1 idFieldLength r.2).2.1 ≠ idFieldLength then none
       else some ((fread 1 idFieldLength r.2).1, (fread 1 idFieldLength r.2).2.2))
    else some ([], r.2)) with
  | none => none
  | some r =>
  let m_Id := r.1
  let m_Fp := r.2
  -- Get the size of the image data
  let imageDataOffset : Nat := OFFSET_IMAGE_DATA + m_Id.length
  let imageDataOffset : Nat :=
    if m_ColorMapType = 1 then
      (imageDataOffset + toUInt32 (colorMapBytes m_ColorMapSize m_ColorMapEntrySize))
        % 4294967296
    else imageDataOffset
  let endAndFp : Int × FILE :=
    if m_Version = Version.VERSION_2 then
      if extensionOffset ≠ 0 then
        if developerOffest ≠ 0 then
          (min (toInt32 (extensionOffset : Int)) (toInt32 (developerOffest : Int)), m_Fp)
        else
          (toInt32 (extensionOffset : Int), m_Fp)
      else if developerOffest ≠ 0 then
        (toInt32 (developerOffest : Int), m_Fp)
      else
        (toInt32 (ftell (fseek m_Fp 0 Origin.SEEK_END).2 - (OFFSET_FOOTER : Int)),
          (fseek m_Fp 0 Origin.SEEK_END).2)
    else
      (ftell (fseek m_Fp 0 Origin.SEEK_END).2, (fseek m_Fp 0 Origin.SEEK_END).2)
  let imageDataEnd := endAndFp.1
  let m_ImageDataSize := toInt32 (imageDataEnd - toInt32 (imageDataOffset : Int))
  some
    { m_Id := m_Id
      m_ImageType := m_ImageType
      m_FirstColorMapEntry := m_FirstColorMapEntry
      m_ColorMapSize := m_ColorMapSize
      m_XOrigin := m_XOrigin
      m_YOrigin := m_YOrigin
      m_Width := m_Width
      m_Height := m_Height
      m_Depth := m_Depth
      m_ColorMapEntrySize := m_ColorMapEntrySize
      m_AlphaDepth := m_AlphaDepth
      m_PixelOrder := m_PixelOrder
      m_AlphaType := m_AlphaType
      m_Version := m_Version
      m_ImageDataSize := m_ImageDataSize
      m_ColorMapType := m_ColorMapType
      m_Fp := endAndFp.2 }


/-- Outcome of `TgaFile::Read`: the returned `bool`, the two caller buffers
afterwards (`none` for a null pointer) and the object afterwards (its
stream position moves). -/
structure ReadResult where
  ok : Bool
  pImage : Option (List Byte)
  pColorMap : Option (List Byte)
  self : TgaFile
deriving DecidableEq, Repr

/-- Model of `bool TgaFile::Read( void * pImage, void * pColorMap )`.  A
buffer argument is `none` for a null pointer and otherwise the buffer's
contents before the call.  `cm` is the outcome of the color-map step:
whether the function goes on (`false` where the source returns `false`),
the color-map buffer and the stream afterwards. -/
def TgaFile.Read (self : TgaFile) (pImage pColorMap : Option (List Byte)) : ReadResult :=
  -- Skip the header and id
  let skip :=
    fseek self.m_Fp ((OFFSET_IMAGE_DATA : Int) + toInt32 (self.m_Id.length : Int)) Origin.SEEK_SET
  if skip.1 ≠ 0 then
    { ok := false, pImage := pImage, pColorMap := pColorMap, self := { self with m_Fp := skip.2 } }
  else
  -- Read the color map
  let cm : Bool × Option (List Byte) × FILE :=
    if self.m_ColorMapType = 1 ∧
        (self.m_ImageType = IMAGE_COLORMAPPED ∨ self.m_ImageType = IMAGE_RLECOLORMAPPED) then
      let colorMapSize : Int := colorMapBytes self.m_ColorMapSize self.m_ColorMapEntrySize
      match pColorMap with
      | some buf =>
        let rd := fread (toUInt32 colorMapSize) 1 skip.2
        if rd.2.1 ≠ 1 then (false, some (storeBuf buf rd.1), rd.2.2)
        else (true, some (storeBuf buf rd.1), rd.2.2)
      | none =>
        let sk := fseek skip.2 colorMapSize Origin.SEEK_CUR
        if sk.1 ≠ 0 then (false, none, sk.2) else (true, none, sk.2)
    else (true, pColorMap, skip.2)
  if cm.1 = false then
    { ok := false, pImage := pImage, pColorMap := cm.2.1, self := { self with m_Fp := cm.2.2 } }
  else
  -- Load the image data
  match pImage with
  | some buf =>
    if self.m_ImageType ≠ IMAGE_NOIMAGE then
      let rd := fread (toUInt32 self.m_ImageDataSize) 1 cm.2.2
      if rd.2.1 ≠ 1 then
        { ok := false, pImage := some (storeBuf buf rd.1), pColorMap := cm.2.1,
          self := { self with m_Fp := rd.2.2 } }
      else
        { ok := true, pImage := some (storeBuf buf rd.1), pColorMap := cm.2.1,
          self := { self with m_Fp := rd.2.2 } }
    else
      { ok := true, pImage := pImage, pColorMap := cm.2.1, self := { self with m_Fp := cm.2.2 } }
  | none =>
    { ok := true, pImage := pImage, pColorMap := cm.2.1, self := { self with m_Fp := cm.2.2 } }

/-! ## The pixel reorderer

The buffer `uint8 * pData` is a list of bytes; a pointer into it is its
offset from `pData`.  Every access is checked against the buffer, and a
run stops at the first access outside it.  Offsets and the `int`
arguments are kept as unbounded integers. -/

/-- Why a run of the reorderer stops early. -/
inductive Fault where
  | outOfRange (index : Int)
  | assertFailed
deriving DecidableEq, Repr

/-- Read `k` bytes starting at offset `p`. -/
def load : Nat → List Byte → Int → Except Fault (List Byte)
  | 0, _, _ => Except.ok []
  | k + 1, pData, p =>
    if 0 ≤ p ∧ p < (pData.length : Int) then
      match load k pData (p + 1) with
      | Except.ok bs => Except.ok (pData.getD p.toNat 0 :: bs)
      | Except.error e => Except.error e
    else Except.error (Fault.outOfRange p)

/-- Write the bytes `v` starting at offset `p`. -/
def store : List Byte → Int → List Byte → Except Fault (List Byte)
  | pData, _, [] => Except.ok pData
  | pData, p, v :: vs =>
    if 0 ≤ p ∧ p < (pData.length : Int) then
      store (pData.set p.toNat v) (p + 1) vs
    else Except.error (Fault.outOfRange p)

/-- Model of `swap( a, b )` on two objects of `k` bytes at offsets `p0` and
`p1`: `tmp = a; a = b; b = tmp`. -/
def swapObj (k : Nat) (pData : List Byte) (p0 p1 : Int) : Except Fault (List Byte) :=
  match load k pData p0 with
  | Except.error e => Except.error e
  | Except.ok tmp =>
    match load k pData p1 with
    | Except.error e => Except.error e
    | Except.ok b =>
      match store pData p0 b with
      | Except.error e => Except.error e
      | Except.ok pData => store pData p1 tmp

/-- The loop of the primary template `SwapPixel< N >`: `count` more
iterations starting at index `i`. -/
def SwapPixel.loop : Nat → Int → List Byte → Int → Int → Except Fault (List Byte)
  | 0, _, pData, _, _ => Except.ok pData
  | count + 1, i, pData, p0, p1 =>
    match swapObj 1 pData (p0 + i) (p1 + i) with
    | Except.error e => Except.error e
    | Except.ok pData => SwapPixel.loop count (i + 1) pData p0 p1

/-- Model of `SwapPixel< N >( p0, p1 )` with its four specialisations. -/
def SwapPixel (N : Nat) (pData : List Byte) (p0 p1 : Int) : Except Fault (List Byte) :=
  if N = 8 then swapObj 1 pData p0 p1
  else if N = 16 then swapObj 2 pData p0 p1
  else if N = 24 then
    match swapObj 1 pData p0 p1 with
    | Except.error e => Except.error e
    | Except.ok pData =>
      match swapObj 1 pData (p0 + 1) (p1 + 1) with
      | Except.error e => Except.error e
      | Except.ok pData => swapObj 1 pData (p0 + 2) (p1 + 2)
  else if N = 32 then swapObj 4 pData p0 p1
  else SwapPixel.loop ((N + 7) / 8) 0 pData p0 p1

/-- Inner loop of `SwapV< N >`: `count` more iterations of
`SwapPixel< N >( p0, p1 ); p0 += N; p1 += N`. -/
def SwapV.inner (N : Nat) : Nat → List Byte → Int → Int → Except Fault (List Byte)
  | 0, pData, _, _ => Except.ok pData
  | count + 1, pData, p0, p1 =>
    match SwapPixel N pData p0 p1 with
    | Except.error e => Except.error e
    | Except.ok pData => SwapV.inner N count pData (p0 + (N : Int)) (p1 + (N : Int))

/-- Outer loop of `SwapV< N >`: `count` more rows starting at row `i`. -/
def SwapV.outer (N : Nat) (w h rowSize : Int) : Nat → Int → List Byte → Except Fault (List Byte)
  | 0, _, pData => Except.ok pData
  | count + 1, i, pData =>
    let p0 := i * rowSize
    let p1 := (h - 1 - i) * rowSize
    match SwapV.inner N w.toNat pData p0 p1 with
    | Except.error e => Except.error e
    | Except.ok pData => SwapV.outer N w h rowSize count (i + 1) pData

/-- Model of `SwapV< N >( pData, w, h )`. -/
def SwapV (N : Nat) (pData : List Byte) (w h : Int) : Except Fault (List Byte) :=
  let rowSize : Int := w * (N : Int)
  SwapV.outer N w h rowSize (Int.tdiv h 2).toNat 0 pData

/-- Inner loop of `SwapH< N >`: `count` more iterations of
`SwapPixel< N >( p0, p1 ); p0 += N; p1 -= N`. -/
def SwapH.inner (N : Nat) : Nat → List Byte → Int → Int → Except Fault (List Byte)
  | 0, pData, _, _ => Except.ok pData
  | count + 1, pData, p0, p1 =>
    match SwapPixel N pData p0 p1 with
    | Except.error e => Except.error e
    | Except.ok pData => SwapH.inner N count pData (p0 + (N : Int)) (p1 - (N : Int))

/-- Outer loop of `SwapH< N >`: `count` more rows starting at row `i`. -/
def SwapH.outer (N : Nat) (w rowSize : Int) : Nat → Int → List Byte → Except Fault (List Byte)
  | 0, _, pData => Except.ok pData
  | count + 1, i, pData =>
    let p0 := i * rowSize
    let p1 := i * rowSize + (rowSize - (N : Int))
    match SwapH.inner N (Int.tdiv w 2).toNat pData p0 p1 with
    | Except.error e => Except.error e
    | Except.ok pData => SwapH.outer N w rowSize count (i + 1) pData

/-- Model of `SwapH< N >( pData, w, h )`. -/
def SwapH (N : Nat) (pData : List Byte) (w h : Int) : Except Fault (List Byte) :=
  let rowSize : Int := w * (N : Int)
  SwapH.outer N w rowSize h.toNat 0 pData

/-- Model of `SwapHV< N >( pData, w, h )`; its loop is the inner loop of
`SwapH< N >` (`p0 += N; p1 -= N`). -/
def SwapHV (N : Nat) (pData : List Byte) (w h : Int) : Except Fault (List Byte) :=
  let p0 : Int := 0
  let p1 : Int := (w * h - 1) * (N : Int)
  SwapH.inner N (Int.tdiv (w * h) 2).toNat pData p0 p1

/-- Model of `ReorderN< N >( pData, w, h, oldOrder, newOrder )`. -/
def ReorderN (N : Nat) (pData : List Byte) (w h : Int) (oldOrder newOrder : PixelOrder) :
    Except Fault (List Byte) :=
  match oldOrder.toNat ^^^ newOrder.toNat with
  | 0 => Except.ok pData
  | 1 => SwapH N pData w h
  | 2 => SwapV N pData w h
  | 3 => SwapHV N pData w h
  | _ => Except.error Fault.assertFailed

/-- Model of `TgaFile::Reorder( pData, order )`. -/
def TgaFile.Reorder (self : TgaFile) (pData : List Byte) (order : PixelOrder) :
    Except Fault (List Byte) :=
  if self.m_Depth = 8 then
    ReorderN 8 pData self.m_Width self.m_Height self.m_PixelOrder order
  else if self.m_Depth = 16 then
    ReorderN 16 pData self.m_Width self.m_Height self.m_PixelOrder order
  else if self.m_Depth = 24 then
    ReorderN 24 pData self.m_Width self.m_Height self.m_PixelOrder order
  else if self.m_Depth = 32 then
    ReorderN 32 pData self.m_Width self.m_Height self.m_PixelOrder order
  else Except.error Fault.assertFailed

/-! ## Closed form of the constructor

The definitions below restate what `TgaFile.Open` computes as direct
expressions in the bytes of the file; `Open_unfold` proves them equal to
the constructor model. -/

/-- Value of the byte at offset `i` of a file (`0` past the end). -/
def byteAt (f : List Byte) (i : Nat) : Nat :=
  (f.getD i 0).val

/-- Unsigned little-endian 16-bit value at offsets `i`, `i + 1`. -/
def wordAt (f : List Byte) (i : Nat) : Nat :=
  byteAt f i + 256 * byteAt f (i + 1)

/-- Footer detection on a freshly opened file, as the constructor calls it. -/
def footerOf (f : List Byte) : Version × Nat × Nat × FILE :=
  TgaFile.ReadFooter (fopen f) 0 0

/-- The alpha-type step of the constructor after footer detection returned
`ft`: the alpha type and the stream afterwards, or `none` when the
constructor throws. -/
def alphaStep (ft : Version × Nat × Nat × FILE) : Option (Int × FILE) :=
  if ft.1 = Version.VERSION_2 ∧ ft.2.1 ≠ 0 then
    (freadOrThrow 1
      (fseek ft.2.2.2 (toInt32 ((ft.2.1 + OFFSET_ATTRIBUTE_TYPE : Nat) : Int))
        Origin.SEEK_SET).2).bind
      (fun r => some ((leNat r.1 : Int), r.2))
  else some (ALPHA_UNSPECIFIED, ft.2.2.2)

/-- The `(long)imageDataOffset` of the constructor, from the header bytes. -/
def imageDataOffsetOf (f : List Byte) : Int :=
  if toInt8 (byteAt f 1) = 1 then
    toInt32 (((OFFSET_IMAGE_DATA + byteAt f 0 +
      toUInt32 (colorMapBytes (toInt16 (wordAt f 5)) (toInt8 (byteAt f 7)))) % 4294967296 : Nat) : Int)
  else toInt32 ((OFFSET_IMAGE_DATA + byteAt f 0 : Nat) : Int)

/-- The `imageDataEnd` of the constructor, from the footer and file length. -/
def imageDataEndOf (f : List Byte) : Int :=
  if (footerOf f).1 = Version.VERSION_2 then
    if (footerOf f).2.1 ≠ 0 then
      if (footerOf f).2.2.1 ≠ 0 then
        min (toInt32 ((footerOf f).2.1 : Int)) (toInt32 ((footerOf f).2.2.1 : Int))
      else toInt32 ((footerOf f).2.1 : Int)
    else if (footerOf f).2.2.1 ≠ 0 then toInt32 ((footerOf f).2.2.1 : Int)
    else toInt32 (toInt32 (f.length : Int) - (OFFSET_FOOTER : Int))
  else toInt32 (f.length : Int)

/-- Stream position the constructor leaves behind. -/
def finalPosOf (f : List Byte) : Nat :=
  if (footerOf f).1 = Version.VERSION_2 ∧ ((footerOf f).2.1 ≠ 0 ∨ (footerOf f).2.2.1 ≠ 0) then
    OFFSET_IMAGE_DATA + byteAt f 0
  else f.length

/-- The object the constructor builds from file `f` once the alpha type
`a` is known and every read has succeeded. -/
def descriptorOf (f : List Byte) (a : Int) : TgaFile :=
  { m_Id := (f.drop 18).take (byteAt f 0)
    m_ImageType := byteAt f 2
    m_FirstColorMapEntry := toInt16 (wordAt f 3)
    m_ColorMapSize := toInt16 (wordAt f 5)
    m_XOrigin := toInt16 (wordAt f 8)
    m_YOrigin := toInt16 (wordAt f 10)
    m_Width := toInt16 (wordAt f 12)
    m_Height := toInt16 (wordAt f 14)
    m_Depth := toInt8 (byteAt f 16)
    m_ColorMapEntrySize := toInt8 (byteAt f 7)
    m_AlphaDepth := ((byteAt f 17 &&& 0xf : Nat) : Int)
    m_PixelOrder := toPixelOrder ((byteAt f 17 >>> 4) &&& 0x3)
    m_AlphaType := a
    m_Version := (footerOf f).1
    m_ImageDataSize := toInt32 (imageDataEndOf f - imageDataOffsetOf f)
    m_ColorMapType := toInt8 (byteAt f 1)
    m_Fp := { data := f, pos := finalPosOf f } }

/-- The image-type test of the constructor. -/
def acceptedImageType (t : Nat) : Prop :=
  t = IMAGE_COLORMAPPED ∨ t = IMAGE_TRUECOLOR ∨ t = IMAGE_RLECOLORMAPPED ∨ t = IMAGE_RLETRUECOLOR

instance (t : Nat) : Decidable (acceptedImageType t) := by
  unfold acceptedImageType; infer_instance

/-- Closed form of `TgaFile.Open`. -/
def openClosed (f : List Byte) : Option TgaFile :=
  match alphaStep (footerOf f) with
  | none => none
  | some (a, _) =>
    if OFFSET_IMAGE_DATA + byteAt f 0 ≤ f.length ∧ acceptedImageType (byteAt f 2) then
      some (descriptorOf f a)
    else none

/-! ## Sample files and buffers

Concrete inputs at which the theorems below evaluate the model. -/

/-- An 18-byte TGA header with the given ID length, color-map type, image
type, color-map length (two bytes), color-map entry size, width, height,
depth and image-descriptor byte; the other fields are zero. -/
def header (idLength colorMapType imageType cmLenLo cmLenHi cmEntrySize
    width height depth descriptor : Byte) : List Byte :=
  [idLength, colorMapType, imageType, 0, 0, cmLenLo, cmLenHi, cmEntrySize,
   0, 0, 0, 0, width, 0, height, 0, depth, descriptor]

/-- The four little-endian bytes of a 32-bit value. -/
def le32 (n : Nat) : List Byte :=
  [Fin.ofNat n, Fin.ofNat (n / 256), Fin.ofNat (n / 65536), Fin.ofNat (n / 16777216)]

/-- The 26-byte version-2 footer with the given offsets. -/
def footer (extensionOffset developerOffset : Nat) : List Byte :=
  le32 extensionOffset ++ le32 developerOffset ++ signatureText ++ [0]

/-- Sixteen distinct pixel bytes. -/
def pixels16 : List Byte :=
  [1, 2, 3, 4, 5, 6, 7, 8, 9, 10, 11, 12, 13, 14, 15, 16]

/-- A 2x2, 32-bit TrueColor version-1 file, no ID, no color map. -/
def fileTrueColor2x2 : List Byte :=
  header 0 0 2 0 0 0 2 2 32 0 ++ pixels16

/-- A 2x2, 32-bit TrueColor version-1 file that also carries a color map
of one 24-bit entry (color-map type 1) before its 16 pixel bytes. -/
def fileTrueColorWithMap : List Byte :=
  header 0 1 2 1 0 24 2 2 32 0 ++ [201, 202, 203] ++ pixels16

/-- An 18-byte TrueColor file: header only, no pixel data. -/
def fileHeaderOnly : List Byte :=
  header 0 0 2 0 0 0 0 0 32 0

/-- A ColorMapped file with color-map type 1 and a color map of zero
entries, followed by 4 pixel bytes. -/
def fileEmptyColorMap : List Byte :=
  header 0 1 1 0 0 24 2 2 8 0 ++ [1, 2, 3, 4]

/-- An 18-byte TrueColor file whose color-map-type byte is 2. -/
def fileColorMapType2 : List Byte :=
  header 0 2 2 0 0 0 0 0 32 0

/-- An 18-byte file whose image-type byte is 3 (Greyscale). -/
def fileGreyscale : List Byte :=
  header 0 0 3 0 0 0 0 0 8 0

/-- A 5-byte file. -/
def fileTruncated : List Byte :=
  [0, 0, 2, 0, 0]

/-- A version-2 file: header, 82 bytes of image data (offsets 18..99), an
extension area of 495 bytes at offset 100 whose attribute-type byte (offset
594) is 3, and a footer with extension offset 100 and developer offset
`0xFFFFFFFF`. -/
def fileV2 : List Byte :=
  header 0 0 2 0 0 0 2 2 32 0 ++ List.replicate 82 7 ++ List.replicate 494 0 ++ [3] ++
    footer 100 4294967295

/-- A 26-byte file that is only a version-2 footer with offsets 5 and 6. -/
def fileFooterOnly : List Byte :=
  footer 5 6

/-- An 18-byte file that is only the signature block. -/
def fileSignatureOnly : List Byte :=
  signatureText ++ [0]

/-- A 2x1 image of depth 8 in bottom-left order. -/
def file2x1Depth8 : List Byte :=
  header 0 0 2 0 0 0 2 1 8 0 ++ [1, 2]

/-- A 1x2 image of depth 32 in bottom-left order. -/
def file1x2Depth32 : List Byte :=
  header 0 0 2 0 0 0 1 2 32 0 ++ [1, 2, 3, 4, 5, 6, 7, 8]

/-- A 2x1 image of depth 16 in bottom-left order. -/
def file2x1Depth16 : List Byte :=
  header 0 0 2 0 0 0 2 1 16 0 ++ [1, 2, 3, 4]

/-- A version-2 ColorMapped file with a 3-byte ID, a color map of two
24-bit entries, 73 bytes of image data (offsets 27..99), an extension area
at offset 100 (attribute type 2 at offset 594), a developer area at offset
595 and a footer naming both. -/
def fileV2ColorMapped : List Byte :=
  header 3 1 1 2 0 24 2 2 8 0 ++ [65, 66, 67] ++ [10, 11, 12, 20, 21, 22] ++
    List.replicate 73 9 ++ List.replicate 494 0 ++ [2] ++ List.replicate 5 0 ++ footer 100 595

/-- A version-2 ColorMapped file whose color map has one entry of entry
size 255 (byte `0xFF`), with 82 bytes after the header (offsets 18..99),
an extension area at offset 100, a developer area at offset 595 and a
footer naming both. -/
def fileV2EntrySize255 : List Byte :=
  header 0 1 1 1 0 255 2 2 8 0 ++ List.replicate 82 9 ++ List.replicate 495 0 ++
    List.replicate 5 0 ++ footer 100 595

/-! ## `Read` in a requested pixel order -/

/-- A version-2 file with no extension area and a developer offset of
`0xFFFFFFFF`: the header followed at once by the footer. -/
def fileV2DevOnly : List Byte :=
  header 0 0 2 0 0 0 2 2 32 0 ++ footer 0 4294967295

/-- A version-2 ColorMapped file with both offsets zero, a color map of
one entry with entry-size byte 255, and 40 bytes between header and
footer. -/
def fileV2NoAreasEntry255 : List Byte :=
  header 0 1 1 1 0 255 2 2 8 0 ++ List.replicate 40 9 ++ footer 0 0

/-- A version-2 TrueColor file with both offsets zero and 16 pixel bytes. -/
def fileV2NoAreas : List Byte :=
  header 0 0 2 0 0 0 2 2 32 0 ++ pixels16 ++ footer 0 0

/-- A version-2 TrueColor file with 16 pixel bytes and a developer area of
4 bytes at offset 34; no extension area. -/
def fileV2DevArea : List Byte :=
  header 0 0 2 0 0 0 2 2 32 0 ++ pixels16 ++ [0, 0, 0, 0] ++ footer 0 34

/-- A version-2 file whose extension offset is `0xFFFFFFFF`; the byte at
offset 493 is 7 and the file has 520 bytes. -/
def fileV2WrapOffset : List Byte :=
  header 0 0 2 0 0 0 2 2 32 0 ++ List.replicate 475 0 ++ [7] ++ footer 4294967295 0

/-- A version-2 file with extension offset 100 that ends before offset
594: header, 82 bytes, footer (126 bytes in all). -/
def fileV2ShortExtension : List Byte :=
  header 0 0 2 0 0 0 2 2 32 0 ++ List.replicate 82 7 ++ footer 100 0

/-- A version-1 ColorMapped file with color-map type 1, a color map of one
entry with entry-size byte 255, and 40 bytes after the header. -/
def fileV1Entry255 : List Byte :=
  header 0 1 1 1 0 255 2 2 8 0 ++ List.replicate 40 9

/-- A version-1 ColorMapped file with a 2-byte ID, a color map of two
24-bit entries (6 bytes) and 4 pixel bytes. -/
def fileV1ColorMapped : List Byte :=
  header 2 1 1 2 0 24 2 2 8 0 ++ [65, 66] ++ [10, 11, 12, 20, 21, 22] ++ [1, 2, 3, 4]

/-- A version-1 ColorMapped file whose header announces a color map of one
24-bit entry but which ends right after the header. -/
def fileV1MissingColorMap : List Byte :=
  header 0 1 1 1 0 24 2 2 8 0

/-- A 2x2, 32-bit TrueColor version-1 file whose image-descriptor byte is
`0xE5` (alpha depth 5, pixel order 2, bits 6 and 7 set). -/
def fileDescriptorE5 : List Byte :=
  header 0 0 2 0 0 0 2 2 32 229 ++ pixels16

/-! ## Slots of the pixel reorderer

`ReorderN< N >` advances its pointers by `N` bytes per pixel and
`SwapPixel< N >` exchanges `N / 8` bytes.  A *slot* is a run of `N` bytes at
an offset that is a multiple of `N`.  The definitions below describe
buffers before and after a run, and the slot permutations of the loops. -/

/-- The buffer `m'` is `m` with the `k` bytes at offset `p0` and the `k`
bytes at offset `p1` exchanged. -/
def Swapped (k p0 p1 : Nat) (m m' : List Byte) : Prop :=
  m'.length = m.length ∧
    ∀ i, m'.getD i 0 =
      if p0 ≤ i ∧ i < p0 + k then m.getD (i - p0 + p1) 0
      else if p1 ≤ i ∧ i < p1 + k then m.getD (i - p1 + p0) 0
      else m.getD i 0

/-- The buffer `m'` is `m` with the first `k` bytes of every slot `s` taken
from slot `π s`, and every other byte unchanged. -/
def Moved (N k : Nat) (π : Nat → Nat) (m m' : List Byte) : Prop :=
  m'.length = m.length ∧
    ∀ s r, r < N → m'.getD (s * N + r) 0 = m.getD ((if r < k then π s else s) * N + r) 0

/-- Exchange of the slots `a` and `b`. -/
def swapSlot (a b s : Nat) : Nat :=
  if s = a then b else if s = b then a else s

/-- Reflection `s ↦ a + b - s` of the `c` slots from `a` upwards and the
`c` slots from `b` downwards. -/
def reflTwo (c a b s : Nat) : Nat :=
  if (a ≤ s ∧ s < a + c) ∨ (b < s + c ∧ s ≤ b) then a + b - s else s

/-- Exchange of the `c` slots from `a` upwards with the `c` slots from `b`
upwards. -/
def shiftTwo (c a b s : Nat) : Nat :=
  if a ≤ s ∧ s < a + c then s + (b - a)
  else if b ≤ s ∧ s < b + c then s - (b - a)
  else s

/-- Slot permutation of `c` iterations of the row loop of `SwapH< N >` from
row `i`: each of the rows is reflected. -/
def hRows (w : Nat) : Nat → Nat → Nat → Nat
  | 0, _, s => s
  | c + 1, i, s => reflTwo (w / 2) (i * w) (i * w + w - 1) (hRows w c (i + 1) s)

/-- Slot permutation of `c` iterations of the row loop of `SwapV< N >` from
row `i`: row `i` is exchanged with row `h - 1 - i`. -/
def vRows (w h : Nat) : Nat → Nat → Nat → Nat
  | 0, _, s => s
  | c + 1, i, s => shiftTwo w (i * w) ((h - 1 - i) * w) (vRows w h c (i + 1) s)

/-- Slot permutation of the operation that `ReorderN< N >` selects for the
value `x` of `oldOrder ^ newOrder`. -/
def opPerm (w h : Nat) (x : Nat) : Nat → Nat :=
  match x with
  | 0 => fun s => s
  | 1 => hRows w h 0
  | 2 => vRows w h (h / 2) 0
  | _ => reflTwo (w * h / 2) 0 (w * h - 1)

/-- Row of the source pixel under the operation `x`. -/
def rowOf (h x row : Nat) : Nat :=
  if 2 ≤ x ∧ row < h then h - 1 - row else row

/-- Column of the source pixel under the operation `x`. -/
def colOf (w h x row col : Nat) : Nat :=
  if x % 2 = 1 ∧ row < h then w - 1 - col else col

end TGA

namespace TGA

/-! ## Lemmas on the stdio model and footer detection -/

theorem fseek_data (fp : FILE) (o : Int) (w : Origin) : (fseek fp o w).2.data = fp.data := by
  simp only [fseek]
  split_ifs <;> rfl

theorem fread_data (s c : Nat) (fp : FILE) : (fread s c fp).2.2.data = fp.data := rfl

theorem ReadFooter_data (fp : FILE) (a b : Nat) :
    (TgaFile.ReadFooter fp a b).2.2.2.data = fp.data := by
  simp only [TgaFile.ReadFooter]
  split_ifs <;> simp [fread_data, fseek_data]

theorem strcmp_append_zero (lit : List Byte) (hlit : ∀ x ∈ lit, x ≠ 0) :
    ∀ t : List Byte, t.length = lit.length → (strcmp (t ++ [0]) lit = 0 ↔ t = lit) := by
  induction lit with
  | nil =>
    intro t ht
    have : t = [] := List.length_eq_zero.mp ht
    subst this
    simp [strcmp]
  | cons b bs ih =>
    intro t ht
    cases t with
    | nil => simp at ht
    | cons a as =>
      have hb : b ≠ 0 := hlit b (List.mem_cons_self _ _)
      have ih2 := ih (fun x hx => hlit x (List.mem_cons_of_mem _ hx)) as (by simpa using ht)
      by_cases hab : a = b
      · subst hab
        simp [strcmp, hb, ih2]
      · simp only [List.cons_append, strcmp, hab, if_false, List.cons.injEq, false_and, iff_false]
        split_ifs <;> decide

theorem signature_match (s : List Byte) (hs : s.length = 18) :
    strcmp (s.set (SIGNATURE_SIZE - 1) 0) signatureText = 0 ↔ s.take 17 = signatureText := by
  have h1 : s.set (SIGNATURE_SIZE - 1) 0 = s.take 17 ++ [0] := by
    rw [List.set_eq_take_append_cons_drop]
    have : s.drop 18 = [] := List.drop_eq_nil_of_le (by omega)
    simp [SIGNATURE_SIZE, hs, this]
  rw [h1]
  apply strcmp_append_zero
  · intro x hx
    simp only [signatureText, List.mem_cons, List.mem_singleton, List.not_mem_nil, or_false] at hx
    rcases hx with h | h | h | h | h | h | h | h | h | h | h | h | h | h | h | h | h <;> subst h <;> decide
  · simp [hs, signatureText]

theorem fread_full (s : Nat) (fp : FILE) (hs : 0 < s) (h : fp.pos + s ≤ fp.data.length) :
    fread s 1 fp = ((fp.data.drop fp.pos).take s, 1, { data := fp.data, pos := fp.pos + s }) := by
  have hl : ((fp.data.drop fp.pos).take s).length = s := by
    simp only [List.length_take, List.length_drop]; omega
  simp only [fread, Nat.mul_one, hl]
  have : ¬ s = 0 := by omega
  simp [this, Nat.div_self hs]

theorem fread_short (s : Nat) (fp : FILE) (h : fp.data.length < fp.pos + s) :
    (fread s 1 fp).2.1 = 0 := by
  simp only [fread, Nat.mul_one]
  split_ifs with h0
  · rfl
  · apply Nat.div_eq_of_lt
    simp only [List.length_take, List.length_drop]; omega

theorem fseek_end_ok (fp : FILE) (k : Nat) (h : k ≤ fp.data.length) :
    (fseek fp (-(k : Int)) Origin.SEEK_END).2 = { data := fp.data, pos := fp.data.length - k } := by
  have h1 : ¬ ((fp.data.length : Int) + -(k : Int) < 0) := by omega
  have h2 : ((fp.data.length : Int) + -(k : Int)).toNat = fp.data.length - k := by omega
  simp only [fseek, h1, if_false, h2]

theorem fseek_end_fail (fp : FILE) (k : Nat) (h : fp.data.length < k) :
    (fseek fp (-(k : Int)) Origin.SEEK_END).2 = fp := by
  have h1 : ((fp.data.length : Int) + -(k : Int) < 0) := by omega
  simp only [fseek, h1, if_true]

/-- Closed form of footer detection on a freshly opened file. -/
theorem ReadFooter_fopen (f : List Byte) (a b : Nat) :
    TgaFile.ReadFooter (fopen f) a b =
      if 26 ≤ f.length ∧ (f.drop (f.length - 18)).take 17 = signatureText then
        (Version.VERSION_2, leNat ((f.drop (f.length - 26)).take 4),
          leNat ((f.drop (f.length - 22)).take 4), { data := f, pos := f.length - 18 })
      else
        (Version.VERSION_1, a, b, { data := f, pos := f.length }) := by
  by_cases h18 : 18 ≤ f.length
  · have hseek : (fseek (fopen f) (-(OFFSET_SIGNATURE : Int)) Origin.SEEK_END).2
        = { data := f, pos := f.length - 18 } := fseek_end_ok (fopen f) 18 h18
    have hread := fread_full 18 { data := f, pos := f.length - 18 } (by omega)
      (by simp only []; omega)
    have hsig := signature_match (List.take 18 (List.drop (f.length - 18) f))
      (by simp only [List.length_take, List.length_drop]; omega)
    have hpos : f.length - 18 + 18 = f.length := by omega
    have htt : List.take 17 (List.take 18 (List.drop (f.length - 18) f))
        = List.take 17 (List.drop (f.length - 18) f) := by
      rw [List.take_take]; rfl
    rw [htt] at hsig
    simp only [TgaFile.ReadFooter, hseek, SIGNATURE_SIZE, hread, hpos]
    by_cases hm : List.take 17 (List.drop (f.length - 18) f) = signatureText
    · have hz : strcmp ((List.take 18 (List.drop (f.length - 18) f)).set (18 - 1) 0)
          signatureText = 0 := hsig.mpr hm
      by_cases h26 : 26 ≤ f.length
      · have hseek2 : (fseek { data := f, pos := f.length } (-(OFFSET_FOOTER : Int))
            Origin.SEEK_END).2 = { data := f, pos := f.length - 26 } :=
          fseek_end_ok { data := f, pos := f.length } 26 h26
        have hr1 := fread_full 4 { data := f, pos := f.length - 26 } (by omega)
          (by simp only []; omega)
        have hr2 := fread_full 4 { data := f, pos := f.length - 22 } (by omega)
          (by simp only []; omega)
        have hp1 : f.length - 26 + 4 = f.length - 22 := by omega
        have hp2 : f.length - 22 + 4 = f.length - 18 := by omega
        simp [hz, hseek2, hr1, hr2, h26, hm, hp1, hp2]
      · have hseek2 : (fseek { data := f, pos := f.length } (-(OFFSET_FOOTER : Int))
            Origin.SEEK_END).2 = { data := f, pos := f.length } :=
          fseek_end_fail { data := f, pos := f.length } 26 (by simp only []; omega)
        have hr1 := fread_short 4 { data := f, pos := f.length } (by simp only []; omega)
        have hr1b : (fread 4 1 { data := f, pos := f.length }).2.2
            = { data := f, pos := f.length } := by
          simp [fread]
        simp [hz, hseek2, hr1, hr1b, h26]
    · have hz : ¬ strcmp ((List.take 18 (List.drop (f.length - 18) f)).set (18 - 1) 0)
          signatureText = 0 := fun h => hm (hsig.mp h)
      simp [hz, hm]
  · have hseek : (fseek (fopen f) (-(OFFSET_SIGNATURE : Int)) Origin.SEEK_END).2 = fopen f :=
      fseek_end_fail (fopen f) 18 (by simp only [fopen]; omega)
    have hr1 := fread_short 18 (fopen f) (by simp only [fopen]; omega)
    have hr1b : (fread 18 1 (fopen f)).2.2 = { data := f, pos := f.length } := by
      have : min 18 f.length = f.length := by omega
      simp [fread, fopen, this]
    have h26 : ¬ 26 ≤ f.length := by omega
    simp only [TgaFile.ReadFooter, hseek, SIGNATURE_SIZE, hr1, hr1b]
    simp [h26]

theorem fseek_set_zero (fp : FILE) :
    (fseek fp 0 Origin.SEEK_SET).2 = { data := fp.data, pos := 0 } := by
  simp [fseek]

theorem fseek_end_zero (fp : FILE) :
    (fseek fp 0 Origin.SEEK_END).2 = { data := fp.data, pos := fp.data.length } := by
  have h : ¬ ((fp.data.length : Int) < 0) := by omega
  simp [fseek, h]

theorem alphaStep_data (ft : Version × Nat × Nat × FILE) (a : Int) (fp : FILE)
    (h : alphaStep ft = some (a, fp)) : fp.data = ft.2.2.2.data := by
  unfold alphaStep at h
  split_ifs at h
  · simp only [Option.bind_eq_some, Option.some.injEq, Prod.mk.injEq] at h
    obtain ⟨r, hr, -, hfp⟩ := h
    unfold freadOrThrow at hr
    split_ifs at hr
    simp only [Option.some.injEq] at hr
    rw [← hfp, ← hr, fread_data, fseek_data]
  · simp only [Option.some.injEq, Prod.mk.injEq] at h
    rw [← h.2]

set_option maxHeartbeats 4000000 in
theorem Open_unfold (f : List Byte) : TgaFile.Open f = openClosed f := by
  have hfd : (footerOf f).2.2.2.data = f := by
    simp only [footerOf, ReadFooter_data, fopen]
  simp only [TgaFile.Open, openClosed]
  rw [show TgaFile.ReadFooter (fopen f) 0 0 = footerOf f from rfl]
  rw [show (if (footerOf f).1 = Version.VERSION_2 ∧ (footerOf f).2.1 ≠ 0 then
        (freadOrThrow 1 (fseek (footerOf f).2.2.2
          (toInt32 ((((footerOf f).2.1 + OFFSET_ATTRIBUTE_TYPE : Nat)) : Int)) Origin.SEEK_SET).2).bind
          (fun r => some ((leNat r.1 : Int), r.2))
      else some (ALPHA_UNSPECIFIED, (footerOf f).2.2.2)) = alphaStep (footerOf f) from rfl]
  generalize hA : alphaStep (footerOf f) = o
  cases o with
  | none => rfl
  | some alpha =>
    obtain ⟨a, fp⟩ := alpha
    have hfp : fp.data = f := (alphaStep_data _ _ _ hA).trans hfd
    simp only [fseek_set_zero, hfp, descriptorOf, imageDataEndOf, imageDataOffsetOf, finalPosOf]
    clear hA hfd hfp
    generalize footerOf f = ft
    rcases f with _ | ⟨b0, _ | ⟨b1, _ | ⟨b2, _ | ⟨b3, _ | ⟨b4, _ | ⟨b5, _ | ⟨b6, _ | ⟨b7, _ | ⟨b8, _ | ⟨b9, _ | ⟨b10, _ | ⟨b11, _ | ⟨b12, _ | ⟨b13, _ | ⟨b14, _ | ⟨b15, _ | ⟨b16, _ | ⟨b17, rest⟩⟩⟩⟩⟩⟩⟩⟩⟩⟩⟩⟩⟩⟩⟩⟩⟩⟩
    case cons.cons.cons.cons.cons.cons.cons.cons.cons.cons.cons.cons.cons.cons.cons.cons.cons.cons =>
      simp only [freadOrThrow, fread, Nat.mul_one, List.drop_zero, List.drop_succ_cons,
        List.take_succ_cons, List.take_zero, List.length_cons, List.length_nil,
        List.length_singleton, Nat.div_self, Nat.one_ne_zero, ↓reduceIte, ne_eq, not_true_eq_false,
        Nat.zero_add, Nat.reduceAdd, Nat.reduceDiv, OfNat.ofNat_ne_zero, leNat, Nat.mul_zero,
        Nat.add_zero, byteAt, wordAt, List.getD_cons_succ, List.getD_cons_zero, Nat.one_mul]
      have hacc : (¬(b2 : Nat) = IMAGE_COLORMAPPED ∧ ¬(b2 : Nat) = IMAGE_TRUECOLOR ∧
          ¬(b2 : Nat) = IMAGE_RLECOLORMAPPED ∧ ¬(b2 : Nat) = IMAGE_RLETRUECOLOR)
          ↔ ¬ acceptedImageType (b2 : Nat) := by
        unfold acceptedImageType; tauto
      simp only [hacc, Nat.div_one, List.length_take]
      by_cases ht : acceptedImageType (b2 : Nat)
      · by_cases hb0 : (b0 : Nat) > 0
        · by_cases hle : (b0 : Nat) ≤ rest.length
          · have hmin : min (b0 : Nat) rest.length = (b0 : Nat) := by omega
            have hc : OFFSET_IMAGE_DATA + (b0 : Nat) ≤
                rest.length + 1 + 1 + 1 + 1 + 1 + 1 + 1 + 1 + 1 + 1 + 1 + 1 + 1 + 1 + 1 + 1 + 1 + 1 := by
              unfold OFFSET_IMAGE_DATA; omega
            simp only [ht, hb0, hmin, hc, not_true_eq_false, ↓reduceIte, and_self,
              fseek_end_zero, ftell, List.length_cons, List.length_take, Option.some.injEq,
              TgaFile.mk.injEq, true_and]
            constructor
            · split_ifs <;> simp_all [OFFSET_IMAGE_DATA]
            · split_ifs <;> simp_all [OFFSET_IMAGE_DATA]
          · have hmin : ¬ min (b0 : Nat) rest.length = (b0 : Nat) := by omega
            have hc : ¬ OFFSET_IMAGE_DATA + (b0 : Nat) ≤
                rest.length + 1 + 1 + 1 + 1 + 1 + 1 + 1 + 1 + 1 + 1 + 1 + 1 + 1 + 1 + 1 + 1 + 1 + 1 := by
              unfold OFFSET_IMAGE_DATA; omega
            simp only [ht, hb0, hmin, hc, not_true_eq_false, not_false_eq_true, ↓reduceIte,
              false_and]
        · have hz : (b0 : Nat) = 0 := by omega
          have hc : OFFSET_IMAGE_DATA + 0 ≤
              rest.length + 1 + 1 + 1 + 1 + 1 + 1 + 1 + 1 + 1 + 1 + 1 + 1 + 1 + 1 + 1 + 1 + 1 + 1 := by
            unfold OFFSET_IMAGE_DATA; omega
          simp only [hb0, ↓reduceIte]
          simp only [ht, hc, not_true_eq_false, ↓reduceIte, and_self,
            fseek_end_zero, ftell, List.length_cons, List.length_nil, Option.some.injEq,
            TgaFile.mk.injEq, true_and, hz, List.take_zero]
          constructor
          · split_ifs <;> simp_all [OFFSET_IMAGE_DATA]
          · split_ifs <;> simp_all [OFFSET_IMAGE_DATA]
      · simp [ht]
    all_goals
      simp only [freadOrThrow, fread, Nat.mul_one, List.drop_zero, List.drop_succ_cons,
        List.take_succ_cons, List.take_zero, List.length_cons, List.length_nil,
        List.length_singleton, Nat.div_self, Nat.one_ne_zero, ↓reduceIte, ne_eq, not_true_eq_false,
        Nat.zero_add, Nat.reduceAdd, Nat.reduceDiv, OfNat.ofNat_ne_zero, leNat, Nat.mul_zero,
        Nat.add_zero, byteAt, wordAt, List.getD_cons_succ, List.getD_cons_zero, Nat.one_mul,
        List.drop_nil, List.take_nil, Nat.zero_div, not_false_eq_true, Nat.reduceEqDiff,
        OFFSET_IMAGE_DATA]
      try simp only [ite_self]
      exact (if_neg (fun h => by have := h.1; omega)).symm

/-! ## Consequences of the closed form -/

theorem byteAt_lt (f : List Byte) (i : Nat) : byteAt f i < 256 :=
  (f.getD i 0).isLt

theorem Open_some (f : List Byte) (d : TgaFile) (h : TgaFile.Open f = some d) :
    (∃ a fp, alphaStep (footerOf f) = some (a, fp) ∧ d = descriptorOf f a) ∧
      OFFSET_IMAGE_DATA + byteAt f 0 ≤ f.length ∧ acceptedImageType (byteAt f 2) := by
  rw [Open_unfold] at h
  unfold openClosed at h
  cases hA : alphaStep (footerOf f) with
  | none => simp [hA] at h
  | some p =>
    obtain ⟨a, fp⟩ := p
    simp only [hA] at h
    split_ifs at h with hc
    simp only [Option.some.injEq] at h
    exact ⟨⟨a, fp, rfl, h.symm⟩, hc.1, hc.2⟩

theorem Open_of_alpha (f : List Byte) (a : Int) (fp : FILE)
    (hA : alphaStep (footerOf f) = some (a, fp))
    (hlen : OFFSET_IMAGE_DATA + byteAt f 0 ≤ f.length)
    (ht : acceptedImageType (byteAt f 2)) :
    TgaFile.Open f = some (descriptorOf f a) := by
  rw [Open_unfold]
  unfold openClosed
  simp only [hA]
  rw [if_pos ⟨hlen, ht⟩]

theorem toInt32_of_range (x : Int) (h1 : -2147483648 ≤ x) (h2 : x < 2147483648) :
    toInt32 x = x := by
  unfold toInt32; omega

theorem toInt8_eq_one (n : Nat) (h : n < 256) : toInt8 n = 1 ↔ n = 1 := by
  unfold toInt8; split_ifs <;> omega

end TGA

namespace TGA

/-! ## Footer detection (C6) -/

/-- C6. Footer detection on a freshly opened file returns `VERSION_2`
exactly when the file has at least 26 bytes and the 17 bytes that start 18
bytes before the end are the text `TRUEVISION-XFILE.` (the last byte of the
file is not compared); in that case the two offsets returned are the
unsigned little-endian values of the 4-byte blocks at `length - 26` and
`length - 22`.  In every other case (a file shorter than 18 bytes, a
signature without room for the offsets, a different signature) the result
is `VERSION_1`; the function is total, so no failure is raised. -/
theorem C6_ReadFooter_classifies (f : List Byte) (a b : Nat) :
    ((TgaFile.ReadFooter (fopen f) a b).1 = Version.VERSION_2 ↔
        26 ≤ f.length ∧ (f.drop (f.length - 18)).take 17 = signatureText) ∧
    ((TgaFile.ReadFooter (fopen f) a b).1 = Version.VERSION_2 →
        (TgaFile.ReadFooter (fopen f) a b).2.1 = leNat ((f.drop (f.length - 26)).take 4) ∧
        (TgaFile.ReadFooter (fopen f) a b).2.2.1 = leNat ((f.drop (f.length - 22)).take 4)) ∧
    (¬ (26 ≤ f.length ∧ (f.drop (f.length - 18)).take 17 = signatureText) →
        (TgaFile.ReadFooter (fopen f) a b).1 = Version.VERSION_1) := by
  rw [ReadFooter_fopen]
  by_cases h : 26 ≤ f.length ∧ (f.drop (f.length - 18)).take 17 = signatureText
  · simp [h]
  · simp [h]

/-- C6 at concrete files: the 26-byte footer-only file is version 2 with
offsets 5 and 6; the 18-byte file that is only the signature block, and the
5-byte file, are version 1. -/
theorem C6_ReadFooter_classifies_witness :
    ((TgaFile.ReadFooter (fopen fileFooterOnly) 0 0).1 = Version.VERSION_2 ∧
      (TgaFile.ReadFooter (fopen fileFooterOnly) 0 0).2.1 = 5 ∧
      (TgaFile.ReadFooter (fopen fileFooterOnly) 0 0).2.2.1 = 6) ∧
    (TgaFile.ReadFooter (fopen fileSignatureOnly) 0 0).1 = Version.VERSION_1 ∧
    (TgaFile.ReadFooter (fopen fileTruncated) 0 0).1 = Version.VERSION_1 :=
  have h := C6_ReadFooter_classifies fileFooterOnly 0 0
  have hv : (TgaFile.ReadFooter (fopen fileFooterOnly) 0 0).1 = Version.VERSION_2 :=
    h.1.mpr ⟨by decide, by decide⟩
  ⟨⟨hv, (h.2.1 hv).1.trans (by decide), (h.2.1 hv).2.trans (by decide)⟩,
    (C6_ReadFooter_classifies fileSignatureOnly 0 0).2.2 (by decide),
    (C6_ReadFooter_classifies fileTruncated 0 0).2.2 (by decide)⟩

/-! ## Failures of the constructor (C7, C9) -/

/-- C7. A file whose image-type byte (offset 2) is none of 1, 2, 9, 10
makes the constructor fail, so in particular the types 0, 3 and 11 do; and
an object the constructor builds has `m_ImageType` among `IMAGE_COLORMAPPED`,
`IMAGE_TRUECOLOR`, `IMAGE_RLECOLORMAPPED`, `IMAGE_RLETRUECOLOR`. -/
theorem C7_image_type_accepted (f : List Byte) :
    ((byteAt f 2 ≠ 1 ∧ byteAt f 2 ≠ 2 ∧ byteAt f 2 ≠ 9 ∧ byteAt f 2 ≠ 10) →
        TgaFile.Open f = none) ∧
    (∀ d, TgaFile.Open f = some d →
        d.m_ImageType = IMAGE_COLORMAPPED ∨ d.m_ImageType = IMAGE_TRUECOLOR ∨
        d.m_ImageType = IMAGE_RLECOLORMAPPED ∨ d.m_ImageType = IMAGE_RLETRUECOLOR) := by
  constructor
  · intro hne
    cases hO : TgaFile.Open f with
    | none => rfl
    | some d =>
      exfalso
      have ht := (Open_some f d hO).2.2
      unfold acceptedImageType IMAGE_COLORMAPPED IMAGE_TRUECOLOR IMAGE_RLECOLORMAPPED
        IMAGE_RLETRUECOLOR at ht
      omega
  · intro d hO
    obtain ⟨⟨a, fp, -, hd⟩, -, ht⟩ := Open_some f d hO
    rw [hd]
    exact ht

/-- C7 at concrete files: the Greyscale file (image type 3) is rejected,
and the object built from the 2x2 TrueColor file has an accepted type. -/
theorem C7_image_type_accepted_witness :
    TgaFile.Open fileGreyscale = none ∧
    (∃ d, TgaFile.Open fileTrueColor2x2 = some d ∧
      (d.m_ImageType = IMAGE_COLORMAPPED ∨ d.m_ImageType = IMAGE_TRUECOLOR ∨
        d.m_ImageType = IMAGE_RLECOLORMAPPED ∨ d.m_ImageType = IMAGE_RLETRUECOLOR)) := by
  refine ⟨(C7_image_type_accepted fileGreyscale).1 (by decide), ?_⟩
  have hs : (TgaFile.Open fileTrueColor2x2).isSome = true := by decide
  obtain ⟨d, hd⟩ := Option.isSome_iff_exists.mp hs
  exact ⟨d, hd, (C7_image_type_accepted fileTrueColor2x2).2 d hd⟩

/-- C9. A file shorter than `18 + idLength` bytes, `idLength` being the
value of its first byte (`0` for the empty file), makes the constructor
fail: it builds no object. -/
theorem C9_short_file_fails (f : List Byte) (h : f.length < 18 + byteAt f 0) :
    TgaFile.Open f = none := by
  cases hO : TgaFile.Open f with
  | none => rfl
  | some d =>
    exfalso
    have hl := (Open_some f d hO).2.1
    unfold OFFSET_IMAGE_DATA at hl
    omega

/-- C9 at concrete files: the 5-byte file and the empty file. -/
theorem C9_short_file_fails_witness :
    TgaFile.Open fileTruncated = none ∧ TgaFile.Open [] = none :=
  ⟨C9_short_file_fails fileTruncated (by decide), C9_short_file_fails [] (by decide)⟩

/-! ## The color-map-type byte (C8) -/

/-- C8, counterexample. The 18-byte TrueColor file whose color-map-type
byte is 2 opens, and the object keeps the value 2. -/
theorem C8_color_map_type_2_opens :
    byteAt fileColorMapType2 1 = 2 ∧
    (TgaFile.Open fileColorMapType2).map (fun d => d.m_ColorMapType) = some 2 := by
  decide

theorem footerOf_short (f : List Byte) (h : f.length < 26) :
    footerOf f = (Version.VERSION_1, 0, 0, { data := f, pos := f.length }) := by
  unfold footerOf
  rw [ReadFooter_fopen, if_neg (fun hc => by have := hc.1; omega)]

/-- C8, amended. The constructor never tests the color-map-type byte: an
object it builds holds the byte at offset 1 unchanged, read as a signed
8-bit value, and for every byte value there is a file with that
color-map-type byte that opens. -/
theorem C8_color_map_type_unchecked :
    (∀ f d, TgaFile.Open f = some d → d.m_ColorMapType = toInt8 (byteAt f 1)) ∧
    (∀ b : Byte, ∃ d, TgaFile.Open (header 0 b 2 0 0 0 0 0 32 0) = some d ∧
        byteAt (header 0 b 2 0 0 0 0 0 32 0) 1 = b.val) := by
  constructor
  · intro f d hO
    obtain ⟨⟨a, fp, -, hd⟩, -, -⟩ := Open_some f d hO
    rw [hd]
    rfl
  · intro b
    have hA : alphaStep (footerOf (header 0 b 2 0 0 0 0 0 32 0)) =
        some (ALPHA_UNSPECIFIED,
          { data := header 0 b 2 0 0 0 0 0 32 0, pos := (header 0 b 2 0 0 0 0 0 32 0).length }) := by
      rw [footerOf_short _ (by simp [header])]
      simp [alphaStep]
    refine ⟨_, Open_of_alpha _ _ _ hA (by simp [header, byteAt, OFFSET_IMAGE_DATA]) ?_, ?_⟩
    · simp [header, byteAt, acceptedImageType, IMAGE_TRUECOLOR]
    · simp [header, byteAt]

/-- C8, amended, at a concrete file: the object built from the file with
color-map-type byte 2 holds 2. -/
theorem C8_color_map_type_unchecked_witness :
    ∃ d, TgaFile.Open fileColorMapType2 = some d ∧ d.m_ColorMapType = 2 := by
  have hs : (TgaFile.Open fileColorMapType2).isSome = true := by decide
  obtain ⟨d, hd⟩ := Option.isSome_iff_exists.mp hs
  refine ⟨d, hd, ?_⟩
  rw [C8_color_map_type_unchecked.1 fileColorMapType2 d hd]
  decide

/-! ## The data-region size of a version-2 file (C5) -/

theorem toInt16_of_lt (n : Nat) (h : n < 32768) : toInt16 n = (n : Int) := by
  unfold toInt16; split_ifs <;> omega

theorem toInt8_of_lt (n : Nat) (h : n < 128) : toInt8 n = (n : Int) := by
  unfold toInt8; split_ifs <;> omega

theorem colorMapBytes_natCast (len es : Nat) :
    colorMapBytes (len : Int) (es : Int) = ((len * ((es + 7) / 8) : Nat) : Int) := by
  unfold colorMapBytes
  have h : Int.tdiv ((es : Int) + 7) 8 = (((es + 7) / 8 : Nat) : Int) := by
    rw [Int.tdiv_eq_ediv (by omega) (by omega)]
    omega
  rw [h]
  push_cast
  rfl

/-- The `(long)imageDataOffset` of the constructor when the color-map
fields are in the non-negative range of their signed types. -/
theorem imageDataOffsetOf_unsigned (f : List Byte)
    (hcm : byteAt f 1 = 1 → wordAt f 5 < 32768 ∧ byteAt f 7 < 128) :
    imageDataOffsetOf f =
      ((18 + byteAt f 0 +
        (if byteAt f 1 = 1 then wordAt f 5 * ((byteAt f 7 + 7) / 8) else 0) : Nat) : Int) := by
  have hb0 := byteAt_lt f 0
  unfold imageDataOffsetOf OFFSET_IMAGE_DATA
  by_cases h1 : byteAt f 1 = 1
  · obtain ⟨hw, he⟩ := hcm h1
    have ht : toInt8 (byteAt f 1) = 1 := (toInt8_eq_one _ (byteAt_lt f 1)).mpr h1
    rw [if_pos ht, if_pos h1, toInt16_of_lt _ hw, toInt8_of_lt _ he, colorMapBytes_natCast]
    have hq : (byteAt f 7 + 7) / 8 ≤ 16 := by omega
    have hp : wordAt f 5 * ((byteAt f 7 + 7) / 8) ≤ 32767 * 16 :=
      Nat.mul_le_mul (by omega) hq
    generalize wordAt f 5 * ((byteAt f 7 + 7) / 8) = P at hp ⊢
    unfold toUInt32 toInt32
    omega
  · have ht : ¬ toInt8 (byteAt f 1) = 1 := fun h => h1 ((toInt8_eq_one _ (byteAt_lt f 1)).mp h)
    rw [if_neg ht, if_neg h1]
    unfold toInt32
    omega

/-- C5, counterexample. In `fileV2` the footer holds extension offset 100
and developer offset `0xFFFFFFFF`, both nonzero with `100 < 0xFFFFFFFF` as
unsigned values; the file opens as version 2, and `m_ImageDataSize` is
`-19`, not `100 - (18 + 0 + 0) = 82`.  In `fileV2EntrySize255` the offsets
are 100 and 595, the color-map-type byte is 1, the color-map length is 1
and the entry-size byte is 255, so `colorMapBytes = 1 * ceil(255 / 8) = 32`;
the file opens as version 2 and `m_ImageDataSize` is `82`, not
`100 - (18 + 0 + 32) = 50`. -/
theorem C5_unsigned_order_fails :
    ((footerOf fileV2).1 = Version.VERSION_2 ∧
      (footerOf fileV2).2.1 = 100 ∧ (footerOf fileV2).2.2.1 = 4294967295 ∧
      byteAt fileV2 0 = 0 ∧ byteAt fileV2 1 = 0 ∧
      (TgaFile.Open fileV2).map (fun d => (d.m_Version, d.m_ImageDataSize)) =
        some (Version.VERSION_2, -19) ∧
      ((100 : Int) - (18 + 0 + 0) = 82)) ∧
    ((footerOf fileV2EntrySize255).1 = Version.VERSION_2 ∧
      (footerOf fileV2EntrySize255).2.1 = 100 ∧ (footerOf fileV2EntrySize255).2.2.1 = 595 ∧
      byteAt fileV2EntrySize255 0 = 0 ∧ byteAt fileV2EntrySize255 1 = 1 ∧
      wordAt fileV2EntrySize255 5 = 1 ∧ byteAt fileV2EntrySize255 7 = 255 ∧
      (TgaFile.Open fileV2EntrySize255).map (fun d => (d.m_Version, d.m_ImageDataSize)) =
        some (Version.VERSION_2, 82) ∧
      ((100 : Int) - (18 + 0 + 1 * ((255 + 7) / 8)) = 50)) := by
  set_option maxRecDepth 1000000 in decide

/-- C5, amended. For a file that opens as version 2 with extension offset
`E` and developer offset `D` both nonzero, `E < D` and `D < 2^31` (so that
the signed 32-bit comparison the constructor makes agrees with the unsigned
one), and, when the color-map-type byte is 1, a color-map length below
32768 and an entry size below 128 (so that the signed header fields equal
the unsigned bytes), `m_ImageDataSize = E - (18 + idLength + colorMapBytes)`
with `colorMapBytes = colorMapLength * ceil(colorMapEntrySize / 8)` when the
color-map-type byte is 1 and 0 otherwise. -/
theorem C5_imageDataSize_both_offsets (f : List Byte) (d : TgaFile)
    (hopen : TgaFile.Open f = some d)
    (hv : d.m_Version = Version.VERSION_2)
    (hE : (footerOf f).2.1 ≠ 0) (hD : (footerOf f).2.2.1 ≠ 0)
    (hlt : (footerOf f).2.1 < (footerOf f).2.2.1)
    (hD31 : (footerOf f).2.2.1 < 2147483648)
    (hcm : byteAt f 1 = 1 → wordAt f 5 < 32768 ∧ byteAt f 7 < 128) :
    d.m_ImageDataSize =
      ((footerOf f).2.1 : Int) -
        ((18 + byteAt f 0 +
          (if byteAt f 1 = 1 then wordAt f 5 * ((byteAt f 7 + 7) / 8) else 0) : Nat) : Int) := by
  obtain ⟨⟨a, fp, -, hd⟩, -, -⟩ := Open_some f d hopen
  subst hd
  have hv2 : (footerOf f).1 = Version.VERSION_2 := hv
  have hb0 := byteAt_lt f 0
  have hoff := imageDataOffsetOf_unsigned f hcm
  have hend : imageDataEndOf f = ((footerOf f).2.1 : Int) := by
    unfold imageDataEndOf
    rw [if_pos hv2, if_pos hE, if_pos hD,
      toInt32_of_range _ (by omega) (by omega), toInt32_of_range _ (by omega) (by omega)]
    exact min_eq_left (by omega)
  show toInt32 (imageDataEndOf f - imageDataOffsetOf f) = _
  rw [hend, hoff]
  have hP : (if byteAt f 1 = 1 then wordAt f 5 * ((byteAt f 7 + 7) / 8) else 0) ≤ 32767 * 16 := by
    split_ifs with h1
    · obtain ⟨hw, he⟩ := hcm h1
      exact Nat.mul_le_mul (by omega) (by omega)
    · omega
  generalize (if byteAt f 1 = 1 then wordAt f 5 * ((byteAt f 7 + 7) / 8) else 0) = P at hP ⊢
  apply toInt32_of_range <;> omega

/-- C5, amended, at a concrete file: `fileV2ColorMapped` has `E = 100`,
`D = 595`, a 3-byte ID and a 6-byte color map, and `m_ImageDataSize` is
`100 - (18 + 3 + 6) = 73`. -/
theorem C5_imageDataSize_both_offsets_witness :
    ∃ d, TgaFile.Open fileV2ColorMapped = some d ∧ d.m_ImageDataSize = 73 := by
  have hs : (TgaFile.Open fileV2ColorMapped).isSome = true := by
    set_option maxRecDepth 1000000 in decide
  obtain ⟨d, hd⟩ := Option.isSome_iff_exists.mp hs
  have hver : (TgaFile.Open fileV2ColorMapped).map (fun t => t.m_Version)
      = some Version.VERSION_2 := by
    set_option maxRecDepth 1000000 in decide
  rw [hd] at hver
  have hE : (footerOf fileV2ColorMapped).2.1 = 100 := by
    set_option maxRecDepth 1000000 in decide
  have hD : (footerOf fileV2ColorMapped).2.2.1 = 595 := by
    set_option maxRecDepth 1000000 in decide
  refine ⟨d, hd, ?_⟩
  rw [C5_imageDataSize_both_offsets fileV2ColorMapped d hd (by simpa using hver)
    (by rw [hE]; decide) (by rw [hD]; decide) (by rw [hE, hD]; decide) (by rw [hD]; decide)
    (fun _ => by decide), hE]
  decide

/-! ## `Read` at concrete files (C1, C10) -/

/-- C1, evaluated at the failing input. `fileTrueColorWithMap` is a
TrueColor file with color-map type 1 and a 3-byte color map at offsets
18..20, followed by its 16 pixel bytes at offsets 21..36.  The constructor
reports `m_ImageDataSize = 16`; `Read` into a 16-byte buffer returns `true`
but delivers the 16 bytes that start at offset 18 (the color map and the
first 13 pixel bytes), not the 16 bytes that start at offset
`18 + 0 + 3 = 21`.  For the file without a color map the bytes delivered
are the pixel bytes. -/
theorem C1_Read_TrueColor_with_color_map :
    byteAt fileTrueColorWithMap 1 = 1 ∧ wordAt fileTrueColorWithMap 5 = 1 ∧
    byteAt fileTrueColorWithMap 7 = 24 ∧
    (fileTrueColorWithMap.drop (18 + 0 + 1 * ((24 + 7) / 8))).take 16 = pixels16 ∧
    (TgaFile.Open fileTrueColorWithMap).map
        (fun d => (d.m_ImageDataSize,
          (d.Read (some (List.replicate 16 0)) none).ok,
          (d.Read (some (List.replicate 16 0)) none).pImage)) =
      some (16, true, some [201, 202, 203, 1, 2, 3, 4, 5, 6, 7, 8, 9, 10, 11, 12, 13]) ∧
    (TgaFile.Open fileTrueColor2x2).map
        (fun d => (d.m_ImageDataSize,
          (d.Read (some (List.replicate 16 0)) none).ok,
          (d.Read (some (List.replicate 16 0)) none).pImage)) =
      some (16, true, some pixels16) := by
  decide

/-- C10, evaluated at the failing inputs. The header-only TrueColor file
opens with `m_ImageDataSize = 0`, and `Read` with a non-null image buffer
returns `false` although no seek fails and no byte is missing.  The
ColorMapped file with an empty color map (0 bytes) and 4 pixel bytes opens
with `m_ImageDataSize = 4`; `Read` returns `false` with a non-null
color-map buffer and `true` with a null one. -/
theorem C10_Read_zero_bytes :
    (TgaFile.Open fileHeaderOnly).map
        (fun d => (d.m_ImageDataSize, (d.Read (some []) none).ok)) = some (0, false) ∧
    (TgaFile.Open fileEmptyColorMap).map
        (fun d => (d.m_ImageDataSize, colorMapBytes d.m_ColorMapSize d.m_ColorMapEntrySize,
          (d.Read (some (List.replicate 4 0)) (some [])).ok,
          (d.Read (some (List.replicate 4 0)) none).ok)) = some (4, 0, false, true) := by
  decide

/-! ## The reorderer at concrete buffers (C2, C3, C4) -/

/-- C2, evaluated at the failing input. For a 2x1 image of depth 8 the
horizontal mirror of the buffer `[1, 2]` should be `[2, 1]`; `ReorderN< 8 >`
and `TgaFile::Reorder` instead access offset 8, outside the 2-byte buffer,
and on a 16-byte buffer exchange the bytes at offsets 0 and 8, leaving
offset 1 alone. -/
theorem C2_Reorder_wrong_stride :
    ReorderN 8 [1, 2] 2 1 PixelOrder.ORDER_BOTTOMLEFT PixelOrder.ORDER_BOTTOMRIGHT =
      Except.error (Fault.outOfRange 8) ∧
    (TgaFile.Open file2x1Depth8).map
        (fun d => d.Reorder [1, 2] PixelOrder.ORDER_BOTTOMRIGHT) =
      some (Except.error (Fault.outOfRange 8)) ∧
    ReorderN 8 [1, 2, 0, 0, 0, 0, 0, 0, 0, 0, 0, 0, 0, 0, 0, 0] 2 1
        PixelOrder.ORDER_BOTTOMLEFT PixelOrder.ORDER_BOTTOMRIGHT =
      Except.ok [0, 2, 0, 0, 0, 0, 0, 0, 1, 0, 0, 0, 0, 0, 0, 0] :=
  ⟨rfl, rfl, rfl⟩

/-- C3, evaluated at the failing input. For a 1x2 image of depth 32 and
the 8-byte buffer `[1..8]`, reordering from bottom-left to top-left and
back does not return the buffer: the first step already accesses offset
32, outside the buffer. -/
theorem C3_round_trip_out_of_range :
    (match ReorderN 32 [1, 2, 3, 4, 5, 6, 7, 8] 1 2
        PixelOrder.ORDER_BOTTOMLEFT PixelOrder.ORDER_TOPLEFT with
      | Except.ok b => ReorderN 32 b 1 2 PixelOrder.ORDER_TOPLEFT PixelOrder.ORDER_BOTTOMLEFT
      | Except.error e => Except.error e) = Except.error (Fault.outOfRange 32) ∧
    (TgaFile.Open file1x2Depth32).map
        (fun d => d.Reorder [1, 2, 3, 4, 5, 6, 7, 8] PixelOrder.ORDER_TOPLEFT) =
      some (Except.error (Fault.outOfRange 32)) :=
  ⟨rfl, rfl⟩

/-- C4, evaluated at the failing input. For a 2x1 image of depth 16
(`bytesPerPixel = 2`, so the buffer is `[0, 4)`), reordering from
bottom-left to top-right accesses offset 16, which is not below
`2 * 1 * 2 = 4`. -/
theorem C4_access_out_of_range :
    ReorderN 16 [1, 2, 3, 4] 2 1 PixelOrder.ORDER_BOTTOMLEFT PixelOrder.ORDER_TOPRIGHT =
      Except.error (Fault.outOfRange 16) ∧
    (TgaFile.Open file2x1Depth16).map
        (fun d => d.Reorder [1, 2, 3, 4] PixelOrder.ORDER_TOPRIGHT) =
      some (Except.error (Fault.outOfRange 16)) ∧
    ¬ ((16 : Int) < 2 * 1 * (16 / 8)) :=
  ⟨rfl, rfl, by decide⟩

end TGA

namespace TGA

/-! ## Further consequences of the closed form -/

theorem footerOf_eq (f : List Byte) :
    footerOf f =
      if 26 ≤ f.length ∧ (f.drop (f.length - 18)).take 17 = signatureText then
        (Version.VERSION_2, leNat ((f.drop (f.length - 26)).take 4),
          leNat ((f.drop (f.length - 22)).take 4), { data := f, pos := f.length - 18 })
      else
        (Version.VERSION_1, 0, 0, { data := f, pos := f.length }) := by
  unfold footerOf
  exact ReadFooter_fopen f 0 0

theorem alphaStep_unspecified (ft : Version × Nat × Nat × FILE)
    (h : ¬ (ft.1 = Version.VERSION_2 ∧ ft.2.1 ≠ 0)) :
    alphaStep ft = some (ALPHA_UNSPECIFIED, ft.2.2.2) := by
  unfold alphaStep
  rw [if_neg h]

theorem Open_version (f : List Byte) (d : TgaFile) (h : TgaFile.Open f = some d) :
    d.m_Version = (footerOf f).1 := by
  obtain ⟨⟨a, fp, -, hd⟩, -, -⟩ := Open_some f d h
  rw [hd]
  rfl

theorem Open_imageDataSize (f : List Byte) (d : TgaFile) (h : TgaFile.Open f = some d) :
    d.m_ImageDataSize = toInt32 (imageDataEndOf f - imageDataOffsetOf f) := by
  obtain ⟨⟨a, fp, -, hd⟩, -, -⟩ := Open_some f d h
  rw [hd]
  rfl

/-! ## Alpha type and version of files without a footer (C15) -/

end TGA

namespace TGA

/-! ## The data-region size of a version-1 file without color map (C12) -/

theorem imageDataEndOf_V1 (f : List Byte) (hv : (footerOf f).1 = Version.VERSION_1)
    (hlen : f.length < 2147483648) : imageDataEndOf f = (f.length : Int) := by
  unfold imageDataEndOf
  rw [if_neg (by rw [hv]; decide)]
  exact toInt32_of_range _ (by omega) (by omega)

/-- C12. For a file shorter than `2^31` bytes (the positions a `long` of
`fseek`/`ftell` can hold) that opens as version 1 and has color-map-type
byte 0, `m_ImageDataSize = fileLength - 18 - idLength`. -/
theorem C12_imageDataSize_V1 (f : List Byte) (d : TgaFile)
    (hopen : TgaFile.Open f = some d)
    (hlen : f.length < 2147483648)
    (hv : d.m_Version = Version.VERSION_1)
    (hcm : byteAt f 1 = 0) :
    d.m_ImageDataSize = (f.length : Int) - 18 - (byteAt f 0 : Int) := by
  have hsz := Open_imageDataSize f d hopen
  have hl := (Open_some f d hopen).2.1
  unfold OFFSET_IMAGE_DATA at hl
  have hv1 : (footerOf f).1 = Version.VERSION_1 := (Open_version f d hopen).symm.trans hv
  have hoff := imageDataOffsetOf_unsigned f (fun h => by omega)
  rw [if_neg (by omega)] at hoff
  rw [hsz, imageDataEndOf_V1 f hv1 hlen, hoff]
  have hb0 := byteAt_lt f 0
  rw [toInt32_of_range _ (by omega) (by omega)]
  omega

/-- C12 at the concrete file: the 34-byte 2x2, 32-bit TrueColor file with
ID length 0 reports `m_ImageDataSize = 16`. -/
theorem C12_imageDataSize_V1_witness :
    fileTrueColor2x2.length = 34 ∧
    ∃ d, TgaFile.Open fileTrueColor2x2 = some d ∧ d.m_ImageDataSize = 16 := by
  refine ⟨by decide, ?_⟩
  have hs : (TgaFile.Open fileTrueColor2x2).isSome = true := by decide
  obtain ⟨d, hd⟩ := Option.isSome_iff_exists.mp hs
  have hv : (TgaFile.Open fileTrueColor2x2).map (fun t => t.m_Version)
      = some Version.VERSION_1 := by decide
  rw [hd] at hv
  refine ⟨d, hd, ?_⟩
  rw [C12_imageDataSize_V1 fileTrueColor2x2 d hd (by decide) (by simpa using hv) (by decide)]
  decide

/-! ## The image-descriptor byte (C17) -/

theorem descriptor_bits (b : Byte) :
    b.val &&& 0xf = b.val % 16 ∧
    (toPixelOrder ((b.val >>> 4) &&& 0x3)).toNat = (b.val / 16) % 4 := by
  revert b
  set_option maxRecDepth 100000 in decide

/-- C17. For a file that opens, with `b` the byte at offset 17,
`m_AlphaDepth = b mod 16` and the numeric value of `m_PixelOrder` is
`(b div 16) mod 4`, one of 0..3; both are functions of `b mod 64`, so bits
6 and 7 of `b` do not enter them. -/
theorem C17_descriptor_byte (f : List Byte) (d : TgaFile) (hopen : TgaFile.Open f = some d) :
    d.m_AlphaDepth = ((byteAt f 17 % 16 : Nat) : Int) ∧
    d.m_PixelOrder.toNat = (byteAt f 17 / 16) % 4 ∧
    d.m_PixelOrder.toNat < 4 ∧
    d.m_AlphaDepth = (((byteAt f 17 % 64) % 16 : Nat) : Int) ∧
    d.m_PixelOrder.toNat = ((byteAt f 17 % 64) / 16) % 4 := by
  obtain ⟨⟨a, fp, -, hd⟩, -, -⟩ := Open_some f d hopen
  have hb := descriptor_bits (f.getD 17 0)
  have h1 : d.m_AlphaDepth = ((byteAt f 17 % 16 : Nat) : Int) := by
    rw [hd]
    show ((byteAt f 17 &&& 0xf : Nat) : Int) = _
    unfold byteAt
    rw [hb.1]
  have h2 : d.m_PixelOrder.toNat = (byteAt f 17 / 16) % 4 := by
    rw [hd]
    show (toPixelOrder ((byteAt f 17 >>> 4) &&& 0x3)).toNat = _
    unfold byteAt
    rw [hb.2]
  refine ⟨h1, h2, ?_, ?_, ?_⟩
  · rw [h2]; omega
  · rw [h1]; congr 1; omega
  · rw [h2]; omega

/-- C17 at a concrete file: with descriptor byte `0xE5` the alpha depth is
5 and the pixel order is 2 (top-left). -/
theorem C17_descriptor_byte_witness :
    byteAt fileDescriptorE5 17 = 229 ∧
    ∃ d, TgaFile.Open fileDescriptorE5 = some d ∧ d.m_AlphaDepth = 5 ∧
      d.m_PixelOrder.toNat = 2 := by
  refine ⟨by decide, ?_⟩
  have hs : (TgaFile.Open fileDescriptorE5).isSome = true := by decide
  obtain ⟨d, hd⟩ := Option.isSome_iff_exists.mp hs
  have h := C17_descriptor_byte fileDescriptorE5 d hd
  refine ⟨d, hd, ?_, ?_⟩
  · rw [h.1]; decide
  · rw [h.2.1]; decide

end TGA

namespace TGA

/-! ## When the constructor succeeds (C18) -/

theorem freadOrThrow_full (s : Nat) (fp : FILE) (hs : 0 < s) (h : fp.pos + s ≤ fp.data.length) :
    freadOrThrow s fp =
      some ((fp.data.drop fp.pos).take s, { data := fp.data, pos := fp.pos + s }) := by
  unfold freadOrThrow
  rw [fread_full s fp hs h]
  simp

theorem freadOrThrow_short (s : Nat) (fp : FILE) (h : fp.data.length < fp.pos + s) :
    freadOrThrow s fp = none := by
  have h0 := fread_short s fp h
  simp [freadOrThrow, h0]

theorem footerOf_V2 (f : List Byte) (hv : (footerOf f).1 = Version.VERSION_2) :
    26 ≤ f.length ∧ (footerOf f).2.2.2 = { data := f, pos := f.length - 18 } := by
  rw [footerOf_eq] at hv ⊢
  split_ifs at hv ⊢ with hc
  exact ⟨hc.1, rfl⟩

theorem fseek_set (fp : FILE) (t : Int) :
    (fseek fp t Origin.SEEK_SET).2 =
      if t < 0 then fp else { data := fp.data, pos := t.toNat } := by
  simp only [fseek, Int.zero_add]
  split_ifs <;> rfl

theorem alphaStep_present (f : List Byte) (hv : (footerOf f).1 = Version.VERSION_2)
    (hp : (footerOf f).2.1 + 494 < f.length) :
    ∃ a fp, alphaStep (footerOf f) = some (a, fp) := by
  obtain ⟨h26, hfp⟩ := footerOf_V2 f hv
  by_cases hE : (footerOf f).2.1 = 0
  · exact ⟨_, _, alphaStep_unspecified _ (by simp [hE])⟩
  · unfold alphaStep
    rw [if_pos ⟨hv, hE⟩, hfp, fseek_set]
    unfold OFFSET_ATTRIBUTE_TYPE
    split_ifs with ht
    · rw [freadOrThrow_full 1 _ (by omega) (by simp only []; omega)]
      exact ⟨_, _, rfl⟩
    · rw [freadOrThrow_full 1 _ (by omega) (by
        simp only []
        unfold toInt32 at ht ⊢
        omega)]
      exact ⟨_, _, rfl⟩

/-- C18. The constructor does not test the computed data-region size: a
file of at least `18 + idLength` bytes whose image-type byte is 1, 2, 9 or
10 (whatever its color-map-type byte) and which is version 1, or version 2
with extension offset 0, or version 2 with a byte at `extensionOffset + 494`,
opens; and `fileV1MissingColorMap` is such a file (version 1, color-map
type 1, a color map of 3 bytes announced, none present) that opens with
`m_ImageDataSize = -3`. -/
theorem C18_negative_size_accepted :
    (∀ f : List Byte, 18 + byteAt f 0 ≤ f.length →
      (byteAt f 2 = 1 ∨ byteAt f 2 = 2 ∨ byteAt f 2 = 9 ∨ byteAt f 2 = 10) →
      ((footerOf f).1 = Version.VERSION_1 ∨
        ((footerOf f).1 = Version.VERSION_2 ∧ (footerOf f).2.1 = 0) ∨
        ((footerOf f).1 = Version.VERSION_2 ∧ (footerOf f).2.1 + 494 < f.length)) →
      ∃ d, TgaFile.Open f = some d) ∧
    (18 + byteAt fileV1MissingColorMap 0 ≤ fileV1MissingColorMap.length ∧
      byteAt fileV1MissingColorMap 1 = 1 ∧ byteAt fileV1MissingColorMap 2 = 1 ∧
      (footerOf fileV1MissingColorMap).1 = Version.VERSION_1 ∧
      (TgaFile.Open fileV1MissingColorMap).map (fun d => d.m_ImageDataSize) = some (-3)) := by
  constructor
  · intro f hlen hty hver
    have hA : ∃ a fp, alphaStep (footerOf f) = some (a, fp) := by
      rcases hver with h | ⟨-, h⟩ | ⟨hv, hp⟩
      · exact ⟨_, _, alphaStep_unspecified _ (by rw [h]; simp)⟩
      · exact ⟨_, _, alphaStep_unspecified _ (by simp [h])⟩
      · exact alphaStep_present f hv hp
    obtain ⟨a, fp, hA⟩ := hA
    exact ⟨_, Open_of_alpha f a fp hA hlen hty⟩
  · decide

/-- C18 at a concrete file: the general part yields that
`fileV1MissingColorMap` opens, and its size is negative. -/
theorem C18_negative_size_accepted_witness :
    ∃ d, TgaFile.Open fileV1MissingColorMap = some d ∧ d.m_ImageDataSize < 0 := by
  obtain ⟨d, hd⟩ := C18_negative_size_accepted.1 fileV1MissingColorMap (by decide)
    (by decide) (Or.inl (by decide))
  refine ⟨d, hd, ?_⟩
  have h := C18_negative_size_accepted.2.2.2.2.2
  rw [hd] at h
  simp only [Option.map_some', Option.some.injEq] at h
  rw [h]
  decide

end TGA


namespace TGA

/-! ## Reordering to the same order (C16) -/

/-- C16. `ReorderN` with `oldOrder = newOrder` returns the buffer
unchanged, for every depth, width, height and order, and so does
`TgaFile::Reorder` asked for the native order of an object whose depth is
8, 16, 24 or 32. -/
theorem C16_same_order_no_op :
    (∀ (N : Nat) (pData : List Byte) (w h : Int) (X : PixelOrder),
      ReorderN N pData w h X X = Except.ok pData) ∧
    (∀ (self : TgaFile) (pData : List Byte),
      (self.m_Depth = 8 ∨ self.m_Depth = 16 ∨ self.m_Depth = 24 ∨ self.m_Depth = 32) →
      self.Reorder pData self.m_PixelOrder = Except.ok pData) := by
  have h1 : ∀ (N : Nat) (pData : List Byte) (w h : Int) (X : PixelOrder),
      ReorderN N pData w h X X = Except.ok pData := by
    intro N pData w h X
    cases X <;> rfl
  refine ⟨h1, ?_⟩
  intro self pData hd
  unfold TgaFile.Reorder
  rcases hd with h | h | h | h <;> simp [h, h1]

/-- C16 at a concrete object: the 2x2, 32-bit file in its native order. -/
theorem C16_same_order_no_op_witness :
    ∃ d, TgaFile.Open fileTrueColor2x2 = some d ∧
      d.Reorder pixels16 d.m_PixelOrder = Except.ok pixels16 := by
  have hs : (TgaFile.Open fileTrueColor2x2).isSome = true := by decide
  obtain ⟨d, hd⟩ := Option.isSome_iff_exists.mp hs
  have hdep : (TgaFile.Open fileTrueColor2x2).map (fun t => t.m_Depth) = some 32 := by decide
  rw [hd] at hdep
  exact ⟨d, hd, C16_same_order_no_op.2 d pixels16
    (Or.inr (Or.inr (Or.inr (by simpa using hdep))))⟩


end TGA

namespace TGA

/-! ## `Read` in a requested pixel order (C11) -/

end TGA

namespace TGA

/-! ## The data-region size of a version-2 file with at most one area (C13) -/

/-- C13, counterexample. `fileV2DevOnly` is classified version 2 with
extension offset 0 and developer offset `0xFFFFFFFF`, no ID and
color-map-type byte 0; it opens and `m_ImageDataSize` is `-19`, not
`0xFFFFFFFF - (18 + 0 + 0) = 4294967277`.  `fileV2NoAreasEntry255` (84
bytes) is classified version 2 with both offsets zero, color-map-type byte
1, color-map length 1 and entry-size byte 255, so
`colorMapBytes = 1 * ceil(255 / 8) = 32`; it opens and `m_ImageDataSize` is
`40`, not `84 - 26 - (18 + 0 + 32) = 8`. -/
theorem C13_single_offset_fails :
    ((footerOf fileV2DevOnly).1 = Version.VERSION_2 ∧
      (footerOf fileV2DevOnly).2.1 = 0 ∧ (footerOf fileV2DevOnly).2.2.1 = 4294967295 ∧
      byteAt fileV2DevOnly 0 = 0 ∧ byteAt fileV2DevOnly 1 = 0 ∧
      (TgaFile.Open fileV2DevOnly).map (fun d => (d.m_Version, d.m_ImageDataSize)) =
        some (Version.VERSION_2, -19) ∧
      ((4294967295 : Int) - (18 + 0 + 0) = 4294967277)) ∧
    ((footerOf fileV2NoAreasEntry255).1 = Version.VERSION_2 ∧
      (footerOf fileV2NoAreasEntry255).2.1 = 0 ∧ (footerOf fileV2NoAreasEntry255).2.2.1 = 0 ∧
      fileV2NoAreasEntry255.length = 84 ∧
      byteAt fileV2NoAreasEntry255 0 = 0 ∧ byteAt fileV2NoAreasEntry255 1 = 1 ∧
      wordAt fileV2NoAreasEntry255 5 = 1 ∧ byteAt fileV2NoAreasEntry255 7 = 255 ∧
      (TgaFile.Open fileV2NoAreasEntry255).map (fun d => (d.m_Version, d.m_ImageDataSize)) =
        some (Version.VERSION_2, 40) ∧
      ((84 : Int) - 26 - (18 + 0 + 1 * ((255 + 7) / 8)) = 8)) := by
  set_option maxRecDepth 1000000 in decide

/-- C13, amended. For a file that opens as version 2, with
`start = 18 + idLength + colorMapBytes` where
`colorMapBytes = colorMapLength * ceil(colorMapEntrySize / 8)` when the
color-map-type byte is 1 and 0 otherwise, and, when the color-map-type byte
is 1, a color-map length below 32768 and an entry size below 128 (so that
the signed header fields equal the unsigned bytes): if exactly one of the
extension and developer offsets is nonzero and that offset is below `2^31`
(so that it is the same number as a signed 32-bit value),
`m_ImageDataSize = offset - start`; if both are zero and the file is shorter
than `2^31` bytes, `m_ImageDataSize = fileLength - 26 - start`. -/
theorem C13_imageDataSize_single_offset (f : List Byte) (d : TgaFile)
    (hopen : TgaFile.Open f = some d)
    (hv : d.m_Version = Version.VERSION_2)
    (hcm : byteAt f 1 = 1 → wordAt f 5 < 32768 ∧ byteAt f 7 < 128) :
    ((footerOf f).2.1 ≠ 0 ∧ (footerOf f).2.2.1 = 0 ∧ (footerOf f).2.1 < 2147483648 →
      d.m_ImageDataSize =
        ((footerOf f).2.1 : Int) -
          ((18 + byteAt f 0 +
            (if byteAt f 1 = 1 then wordAt f 5 * ((byteAt f 7 + 7) / 8) else 0) : Nat) : Int)) ∧
    ((footerOf f).2.1 = 0 ∧ (footerOf f).2.2.1 ≠ 0 ∧ (footerOf f).2.2.1 < 2147483648 →
      d.m_ImageDataSize =
        ((footerOf f).2.2.1 : Int) -
          ((18 + byteAt f 0 +
            (if byteAt f 1 = 1 then wordAt f 5 * ((byteAt f 7 + 7) / 8) else 0) : Nat) : Int)) ∧
    ((footerOf f).2.1 = 0 ∧ (footerOf f).2.2.1 = 0 ∧ f.length < 2147483648 →
      d.m_ImageDataSize =
        (f.length : Int) - 26 -
          ((18 + byteAt f 0 +
            (if byteAt f 1 = 1 then wordAt f 5 * ((byteAt f 7 + 7) / 8) else 0) : Nat) : Int)) := by
  have hv2 : (footerOf f).1 = Version.VERSION_2 := by
    rw [← Open_version f d hopen]; exact hv
  have h26 := (footerOf_V2 f hv2).1
  have hb0 := byteAt_lt f 0
  have hoff := imageDataOffsetOf_unsigned f hcm
  have hP : (if byteAt f 1 = 1 then wordAt f 5 * ((byteAt f 7 + 7) / 8) else 0) ≤ 32767 * 16 := by
    split_ifs with h1
    · obtain ⟨hw, he⟩ := hcm h1
      exact Nat.mul_le_mul (by omega) (by omega)
    · omega
  rw [Open_imageDataSize f d hopen, hoff]
  generalize (if byteAt f 1 = 1 then wordAt f 5 * ((byteAt f 7 + 7) / 8) else 0) = P at hP ⊢
  refine ⟨?_, ?_, ?_⟩
  · rintro ⟨hE, hD, hE31⟩
    have hend : imageDataEndOf f = ((footerOf f).2.1 : Int) := by
      unfold imageDataEndOf
      rw [if_pos hv2, if_pos hE, if_neg (by simp [hD]), toInt32_of_range _ (by omega) (by omega)]
    rw [hend]
    apply toInt32_of_range <;> omega
  · rintro ⟨hE, hD, hD31⟩
    have hend : imageDataEndOf f = ((footerOf f).2.2.1 : Int) := by
      unfold imageDataEndOf
      rw [if_pos hv2, if_neg (by simp [hE]), if_pos hD, toInt32_of_range _ (by omega) (by omega)]
    rw [hend]
    apply toInt32_of_range <;> omega
  · rintro ⟨hE, hD, hlen⟩
    have hend : imageDataEndOf f = (f.length : Int) - 26 := by
      unfold imageDataEndOf OFFSET_FOOTER OFFSET_SIGNATURE SIGNATURE_SIZE
      rw [if_pos hv2, if_neg (by simp [hE]), if_neg (by simp [hD]),
        toInt32_of_range (f.length : Int) (by omega) (by omega)]
      apply toInt32_of_range <;> push_cast <;> omega
    rw [hend]
    apply toInt32_of_range <;> omega

/-- C13, amended, at concrete files: `fileV2DevArea` has extension offset
0 and developer offset 34, and `m_ImageDataSize` is `34 - 18 = 16`;
`fileV2NoAreas` has both offsets zero and 60 bytes, and `m_ImageDataSize`
is `60 - 26 - 18 = 16`. -/
theorem C13_imageDataSize_single_offset_witness :
    (∃ d, TgaFile.Open fileV2DevArea = some d ∧ d.m_ImageDataSize = 16) ∧
    (∃ d, TgaFile.Open fileV2NoAreas = some d ∧ d.m_ImageDataSize = 16) := by
  constructor
  · have hs : (TgaFile.Open fileV2DevArea).isSome = true := by decide
    obtain ⟨d, hd⟩ := Option.isSome_iff_exists.mp hs
    have hver : (TgaFile.Open fileV2DevArea).map (fun t => t.m_Version)
        = some Version.VERSION_2 := by decide
    rw [hd] at hver
    have hE : (footerOf fileV2DevArea).2.1 = 0 := by decide
    have hD : (footerOf fileV2DevArea).2.2.1 = 34 := by decide
    refine ⟨d, hd, ?_⟩
    rw [(C13_imageDataSize_single_offset fileV2DevArea d hd (by simpa using hver)
      (fun _ => by decide)).2.1 ⟨hE, by rw [hD]; decide, by rw [hD]; decide⟩, hD]
    decide
  · have hs : (TgaFile.Open fileV2NoAreas).isSome = true := by decide
    obtain ⟨d, hd⟩ := Option.isSome_iff_exists.mp hs
    have hver : (TgaFile.Open fileV2NoAreas).map (fun t => t.m_Version)
        = some Version.VERSION_2 := by decide
    rw [hd] at hver
    have hE : (footerOf fileV2NoAreas).2.1 = 0 := by decide
    have hD : (footerOf fileV2NoAreas).2.2.1 = 0 := by decide
    refine ⟨d, hd, ?_⟩
    rw [(C13_imageDataSize_single_offset fileV2NoAreas d hd (by simpa using hver)
      (fun _ => by decide)).2.2 ⟨hE, hD, by decide⟩]
    decide

end TGA

namespace TGA

/-! ## The alpha type of a version-2 file with an extension area (C14) -/

theorem leNat_take_one (f : List Byte) (i : Nat) (h : i < f.length) :
    leNat ((f.drop i).take 1) = byteAt f i := by
  have hd : f.drop i = f[i] :: f.drop (i + 1) := List.drop_eq_getElem_cons h
  rw [hd]
  simp [leNat, byteAt, List.getD_eq_getElem?_getD, List.getElem?_eq_getElem h]

theorem alphaStep_extension (f : List Byte) (hv : (footerOf f).1 = Version.VERSION_2)
    (hE : (footerOf f).2.1 ≠ 0) (h31 : (footerOf f).2.1 + 494 < 2147483648) :
    ((footerOf f).2.1 + 494 < f.length →
      ∃ fp, alphaStep (footerOf f) = some ((byteAt f ((footerOf f).2.1 + 494) : Int), fp)) ∧
    (f.length ≤ (footerOf f).2.1 + 494 → alphaStep (footerOf f) = none) := by
  obtain ⟨h26, hfp⟩ := footerOf_V2 f hv
  have ht : toInt32 (((footerOf f).2.1 + OFFSET_ATTRIBUTE_TYPE : Nat) : Int) =
      (((footerOf f).2.1 + 494 : Nat) : Int) := by
    unfold OFFSET_ATTRIBUTE_TYPE
    apply toInt32_of_range <;> omega
  have hs : (fseek (footerOf f).2.2.2
      (toInt32 (((footerOf f).2.1 + OFFSET_ATTRIBUTE_TYPE : Nat) : Int)) Origin.SEEK_SET).2 =
      { data := f, pos := (footerOf f).2.1 + 494 } := by
    rw [ht, hfp, fseek_set, if_neg (by omega)]
    simp
    omega
  constructor
  · intro hp
    unfold alphaStep
    rw [if_pos ⟨hv, hE⟩, hs, freadOrThrow_full 1 _ (by omega) (by simp only []; omega)]
    simp only [Option.bind]
    rw [leNat_take_one f _ hp]
    exact ⟨_, rfl⟩
  · intro hp
    unfold alphaStep
    rw [if_pos ⟨hv, hE⟩, hs, freadOrThrow_short 1 _ (by simp only []; omega)]
    rfl

/-- C14, counterexample. `fileV2WrapOffset` (520 bytes) is classified
version 2 with extension offset `E = 0xFFFFFFFF`; it has no byte at offset
`E + 494 = 4294967789`, yet it opens, with `m_AlphaType = 7` (the byte at
offset 493, which is `E + 494` reduced to 32 bits). -/
theorem C14_no_byte_yet_opens :
    (footerOf fileV2WrapOffset).1 = Version.VERSION_2 ∧
    (footerOf fileV2WrapOffset).2.1 = 4294967295 ∧
    fileV2WrapOffset.length = 520 ∧
    fileV2WrapOffset.length ≤ (footerOf fileV2WrapOffset).2.1 + 494 ∧
    byteAt fileV2WrapOffset 493 = 7 ∧
    (TgaFile.Open fileV2WrapOffset).map (fun d => (d.m_Version, d.m_AlphaType)) =
      some (Version.VERSION_2, 7) := by
  set_option maxRecDepth 1000000 in decide

/-- C14, amended. For a file classified version 2 whose extension offset
`E` is nonzero with `E + 494 < 2^31` (so that the seek target is the same
number as a signed 32-bit `long`): if the file has a byte at offset
`E + 494`, every object a successful `Open` builds has `m_AlphaType` equal
to the numeric value of that byte, whatever it is; if the file has no byte
at offset `E + 494`, `Open` fails. -/
theorem C14_alpha_type_byte (f : List Byte)
    (hv : (footerOf f).1 = Version.VERSION_2)
    (hE : (footerOf f).2.1 ≠ 0) (h31 : (footerOf f).2.1 + 494 < 2147483648) :
    ((footerOf f).2.1 + 494 < f.length →
      ∀ d, TgaFile.Open f = some d →
        d.m_AlphaType = (byteAt f ((footerOf f).2.1 + 494) : Int)) ∧
    (f.length ≤ (footerOf f).2.1 + 494 → TgaFile.Open f = none) := by
  obtain ⟨hyes, hno⟩ := alphaStep_extension f hv hE h31
  constructor
  · intro hp d hopen
    obtain ⟨fp, hA⟩ := hyes hp
    obtain ⟨⟨a, fp2, hA2, hd⟩, -, -⟩ := Open_some f d hopen
    rw [hA] at hA2
    simp only [Option.some.injEq, Prod.mk.injEq] at hA2
    rw [hd, ← hA2.1]
    rfl
  · intro hp
    rw [Open_unfold]
    unfold openClosed
    rw [hno hp]

/-- C14, amended, at concrete files: `fileV2` has `E = 100` and the byte 3
at offset 594, and opens with `m_AlphaType = 3`; `fileV2ShortExtension` has
`E = 100` and 126 bytes, and does not open. -/
theorem C14_alpha_type_byte_witness :
    (∃ d, TgaFile.Open fileV2 = some d ∧ d.m_AlphaType = 3) ∧
    TgaFile.Open fileV2ShortExtension = none := by
  have hE : (footerOf fileV2).2.1 = 100 := by
    set_option maxRecDepth 1000000 in decide
  have hE2 : (footerOf fileV2ShortExtension).2.1 = 100 := by
    set_option maxRecDepth 1000000 in decide
  constructor
  · have hs : (TgaFile.Open fileV2).isSome = true := by
      set_option maxRecDepth 1000000 in decide
    obtain ⟨d, hd⟩ := Option.isSome_iff_exists.mp hs
    refine ⟨d, hd, ?_⟩
    rw [(C14_alpha_type_byte fileV2 (by set_option maxRecDepth 1000000 in decide)
      (by rw [hE]; decide) (by rw [hE]; decide)).1
        (by rw [hE]; set_option maxRecDepth 1000000 in decide) d hd, hE]
    set_option maxRecDepth 1000000 in decide
  · exact (C14_alpha_type_byte fileV2ShortExtension
      (by set_option maxRecDepth 1000000 in decide)
      (by rw [hE2]; decide) (by rw [hE2]; decide)).2
        (by rw [hE2]; set_option maxRecDepth 1000000 in decide)

end TGA

namespace TGA

/-! ## The color map of a version-1 file (C19) -/

theorem fseek_set_nat (fp : FILE) (n : Nat) :
    fseek fp (n : Int) Origin.SEEK_SET = (0, { data := fp.data, pos := n }) := by
  simp only [fseek, Int.zero_add]
  rw [if_neg (by omega)]
  simp

theorem fseek_cur_nat (fp : FILE) (n : Nat) :
    fseek fp (n : Int) Origin.SEEK_CUR = (0, { data := fp.data, pos := fp.pos + n }) := by
  simp only [fseek]
  rw [if_neg (by omega)]
  simp
  omega

theorem toUInt32_natCast (n : Nat) (h : n < 4294967296) : toUInt32 (n : Int) = n := by
  unfold toUInt32
  omega

/-- The first step of `Read`: the seek to the end of the ID. -/
theorem Read_seek (self : TgaFile) (hid : self.m_Id.length < 2147483630) :
    fseek self.m_Fp ((OFFSET_IMAGE_DATA : Int) + toInt32 (self.m_Id.length : Int))
      Origin.SEEK_SET = (0, { data := self.m_Fp.data, pos := 18 + self.m_Id.length }) := by
  rw [toInt32_of_range _ (by omega) (by omega)]
  have : ((OFFSET_IMAGE_DATA : Nat) : Int) + (self.m_Id.length : Int)
      = ((18 + self.m_Id.length : Nat) : Int) := by
    unfold OFFSET_IMAGE_DATA; push_cast; rfl
  rw [this, fseek_set_nat]

/-- `Read` with two null pointers on a color-mapped image with a color map
of `cm` bytes: the color map is skipped. -/
theorem Read_null_colorMapped (self : TgaFile) (cm : Nat)
    (hct : self.m_ColorMapType = 1)
    (hit : self.m_ImageType = IMAGE_COLORMAPPED ∨ self.m_ImageType = IMAGE_RLECOLORMAPPED)
    (hid : self.m_Id.length < 2147483630)
    (hcm : colorMapBytes self.m_ColorMapSize self.m_ColorMapEntrySize = (cm : Int)) :
    self.Read none none =
      { ok := true, pImage := none, pColorMap := none,
        self := { self with
          m_Fp := { data := self.m_Fp.data, pos := 18 + self.m_Id.length + cm } } } := by
  have hc : self.m_ColorMapType = 1 ∧
      (self.m_ImageType = IMAGE_COLORMAPPED ∨ self.m_ImageType = IMAGE_RLECOLORMAPPED) :=
    ⟨hct, hit⟩
  unfold TgaFile.Read
  simp only []
  rw [Read_seek self hid, hcm, fseek_cur_nat]
  simp only []
  rw [if_neg (show ¬ ((0 : Int) ≠ 0) from fun h => h rfl), if_pos hc,
    if_neg (show ¬ ((0 : Int) ≠ 0) from fun h => h rfl)]
  simp only []
  rw [if_neg (show ¬ (true = false) from Bool.noConfusion)]

/-- `Read` with a null image pointer and a color-map buffer on a
color-mapped image with a color map of `cm > 0` bytes that the file holds:
the color map is transferred. -/
theorem Read_buffer_colorMapped (self : TgaFile) (cm : Nat) (buf : List Byte)
    (hct : self.m_ColorMapType = 1)
    (hit : self.m_ImageType = IMAGE_COLORMAPPED ∨ self.m_ImageType = IMAGE_RLECOLORMAPPED)
    (hid : self.m_Id.length < 2147483630)
    (hcm : colorMapBytes self.m_ColorMapSize self.m_ColorMapEntrySize = (cm : Int))
    (h0 : 0 < cm) (h32 : cm < 4294967296)
    (hfile : 18 + self.m_Id.length + cm ≤ self.m_Fp.data.length) :
    self.Read none (some buf) =
      { ok := true, pImage := none,
        pColorMap := some (storeBuf buf ((self.m_Fp.data.drop (18 + self.m_Id.length)).take cm)),
        self := { self with
          m_Fp := { data := self.m_Fp.data, pos := 18 + self.m_Id.length + cm } } } := by
  have hc : self.m_ColorMapType = 1 ∧
      (self.m_ImageType = IMAGE_COLORMAPPED ∨ self.m_ImageType = IMAGE_RLECOLORMAPPED) :=
    ⟨hct, hit⟩
  unfold TgaFile.Read
  simp only []
  rw [Read_seek self hid, hcm, toUInt32_natCast cm h32,
    fread_full cm { data := self.m_Fp.data, pos := 18 + self.m_Id.length } h0 hfile]
  simp only []
  rw [if_neg (show ¬ ((0 : Int) ≠ 0) from fun h => h rfl), if_pos hc,
    if_neg (show ¬ ((1 : Nat) ≠ 1) from fun h => h rfl)]
  simp only []
  rw [if_neg (show ¬ (true = false) from Bool.noConfusion)]

theorem descriptorOf_Id_length (f : List Byte) (a : Int)
    (h : OFFSET_IMAGE_DATA + byteAt f 0 ≤ f.length) :
    (descriptorOf f a).m_Id.length = byteAt f 0 := by
  show ((f.drop 18).take (byteAt f 0)).length = byteAt f 0
  unfold OFFSET_IMAGE_DATA at h
  simp only [List.length_take, List.length_drop]
  omega

/-- C19, counterexample. `fileV1Entry255` (58 bytes) opens as version 1
with color-map-type byte 1, ID length 0, color-map length 1 and entry-size
byte 255, so `colorMapLength * ceil(colorMapEntrySize / 8) = 1 * 32 = 32`;
`m_ImageDataSize` is `40`, not `58 - (18 + 0 + 32) = 8`, and `Read` of this
color-mapped image with null pointers returns `true` leaving the stream at
offset 18: it skips no byte, not 32. -/
theorem C19_entry_size_255 :
    fileV1Entry255.length = 58 ∧
    byteAt fileV1Entry255 0 = 0 ∧ byteAt fileV1Entry255 1 = 1 ∧ byteAt fileV1Entry255 2 = 1 ∧
    wordAt fileV1Entry255 5 = 1 ∧ byteAt fileV1Entry255 7 = 255 ∧
    (TgaFile.Open fileV1Entry255).map
        (fun d => (d.m_Version, d.m_ImageDataSize, (d.Read none none).ok,
          (d.Read none none).self.m_Fp.pos)) =
      some (Version.VERSION_1, 40, true, 18) ∧
    ((58 : Int) - (18 + 0 + 1 * ((255 + 7) / 8)) = 8) := by
  decide

/-- C19, amended. For a file shorter than `2^31` bytes that opens as
version 1 with color-map-type byte 1, a color-map length (header bytes 5-6,
unsigned little-endian) below 32768 and an entry size (header byte 7) below
128, with `cm = colorMapLength * ceil(colorMapEntrySize / 8)`:
`m_ImageDataSize = fileLength - (18 + idLength + cm)`; and when the image
type is color-mapped (1 or 9), `Read` with null pointers returns `true`
leaving the stream `cm` bytes after the ID (at `18 + idLength + cm`), and
`Read` with a color-map buffer, when `cm > 0` and the file holds those
bytes, returns `true`, has put the `cm` bytes that follow the ID at the
start of the buffer and leaves the stream at `18 + idLength + cm`. -/
theorem C19_colorMap_bytes (f : List Byte) (d : TgaFile)
    (hopen : TgaFile.Open f = some d)
    (hv : d.m_Version = Version.VERSION_1)
    (hct : byteAt f 1 = 1) (hw : wordAt f 5 < 32768) (he : byteAt f 7 < 128)
    (hlen : f.length < 2147483648) :
    d.m_ImageDataSize =
      (f.length : Int) -
        ((18 + byteAt f 0 + wordAt f 5 * ((byteAt f 7 + 7) / 8) : Nat) : Int) ∧
    ((byteAt f 2 = 1 ∨ byteAt f 2 = 9) →
      ((d.Read none none).ok = true ∧
        (d.Read none none).self.m_Fp.pos =
          18 + byteAt f 0 + wordAt f 5 * ((byteAt f 7 + 7) / 8)) ∧
      (∀ buf : List Byte, 0 < wordAt f 5 * ((byteAt f 7 + 7) / 8) →
        18 + byteAt f 0 + wordAt f 5 * ((byteAt f 7 + 7) / 8) ≤ f.length →
        (d.Read none (some buf)).ok = true ∧
        (d.Read none (some buf)).pColorMap =
          some (storeBuf buf
            ((f.drop (18 + byteAt f 0)).take (wordAt f 5 * ((byteAt f 7 + 7) / 8)))) ∧
        (d.Read none (some buf)).self.m_Fp.pos =
          18 + byteAt f 0 + wordAt f 5 * ((byteAt f 7 + 7) / 8))) := by
  have hsz := Open_imageDataSize f d hopen
  have hv1 : (footerOf f).1 = Version.VERSION_1 := (Open_version f d hopen).symm.trans hv
  obtain ⟨⟨a, fp, -, hd⟩, hl, -⟩ := Open_some f d hopen
  have hb0 := byteAt_lt f 0
  have hP : wordAt f 5 * ((byteAt f 7 + 7) / 8) ≤ 32767 * 16 :=
    Nat.mul_le_mul (by omega) (by omega)
  constructor
  · have hoff := imageDataOffsetOf_unsigned f (fun _ => ⟨hw, he⟩)
    rw [if_pos hct] at hoff
    rw [hsz, imageDataEndOf_V1 f hv1 hlen, hoff]
    generalize wordAt f 5 * ((byteAt f 7 + 7) / 8) = P at hP ⊢
    apply toInt32_of_range <;> omega
  · intro hty
    subst hd
    have hidl := descriptorOf_Id_length f a hl
    have hid : (descriptorOf f a).m_Id.length < 2147483630 := by rw [hidl]; omega
    have hct2 : (descriptorOf f a).m_ColorMapType = 1 := by
      show toInt8 (byteAt f 1) = 1
      rw [hct]; decide
    have hit : (descriptorOf f a).m_ImageType = IMAGE_COLORMAPPED ∨
        (descriptorOf f a).m_ImageType = IMAGE_RLECOLORMAPPED := hty
    have hcm : colorMapBytes (descriptorOf f a).m_ColorMapSize
        (descriptorOf f a).m_ColorMapEntrySize
          = ((wordAt f 5 * ((byteAt f 7 + 7) / 8) : Nat) : Int) := by
      show colorMapBytes (toInt16 (wordAt f 5)) (toInt8 (byteAt f 7)) = _
      rw [toInt16_of_lt _ hw, toInt8_of_lt _ he, colorMapBytes_natCast]
    have hdata : (descriptorOf f a).m_Fp.data = f := rfl
    constructor
    · rw [Read_null_colorMapped _ _ hct2 hit hid hcm, hidl]
      exact ⟨rfl, rfl⟩
    · intro buf h0 hfile
      rw [Read_buffer_colorMapped _ _ buf hct2 hit hid hcm h0 (by omega)
        (by rw [hidl, hdata]; exact hfile), hidl, hdata]
      exact ⟨rfl, rfl, rfl⟩

/-- C19, amended, at a concrete file: `fileV1ColorMapped` (30 bytes) has a
2-byte ID and a color map of two 24-bit entries (6 bytes); it opens with
`m_ImageDataSize = 30 - (18 + 2 + 6) = 4`, and `Read` with null pointers
leaves the stream at offset `18 + 2 + 6 = 26`. -/
theorem C19_colorMap_bytes_witness :
    ∃ d, TgaFile.Open fileV1ColorMapped = some d ∧ d.m_ImageDataSize = 4 ∧
      (d.Read none none).ok = true ∧ (d.Read none none).self.m_Fp.pos = 26 ∧
      (d.Read none (some [0, 0, 0, 0, 0, 0, 0])).pColorMap =
        some [10, 11, 12, 20, 21, 22, 0] := by
  have hs : (TgaFile.Open fileV1ColorMapped).isSome = true := by decide
  obtain ⟨d, hd⟩ := Option.isSome_iff_exists.mp hs
  have hver : (TgaFile.Open fileV1ColorMapped).map (fun t => t.m_Version)
      = some Version.VERSION_1 := by decide
  rw [hd] at hver
  have h := C19_colorMap_bytes fileV1ColorMapped d hd (by simpa using hver)
    (by decide) (by decide) (by decide) (by decide)
  have h2 := h.2 (Or.inl (by decide))
  have h3 := h2.2 [0, 0, 0, 0, 0, 0, 0] (by decide) (by decide)
  refine ⟨d, hd, ?_, h2.1.1, ?_, ?_⟩
  · rw [h.1]; decide
  · rw [h2.1.2]; decide
  · rw [h3.2.1]; decide

end TGA

namespace TGA

/-! ## Byte-level behaviour of the reorderer's memory accesses -/

theorem getD_set_eq (m : List Byte) (p i : Nat) (v : Byte) (hp : p < m.length) :
    (m.set p v).getD i 0 = if i = p then v else m.getD i 0 := by
  simp only [List.getD_eq_getElem?_getD, List.getElem?_set]
  by_cases h : p = i
  · subst h; simp [hp]
  · have h2 : ¬ i = p := fun e => h e.symm
    simp [h, h2]

theorem load_spec (k : Nat) (m : List Byte) (p : Nat) (h : p + k ≤ m.length) :
    ∃ l, load k m (p : Int) = Except.ok l ∧ l.length = k ∧
      ∀ j, j < k → l.getD j 0 = m.getD (p + j) 0 := by
  induction k generalizing p with
  | zero => exact ⟨[], rfl, rfl, fun j hj => absurd hj (Nat.not_lt_zero j)⟩
  | succ k ih =>
    obtain ⟨l, hl, hlen, hget⟩ := ih (p + 1) (by omega)
    have hc : (0 : Int) ≤ (p : Int) ∧ (p : Int) < (m.length : Int) := by omega
    refine ⟨m.getD p 0 :: l, ?_, by simp [hlen], ?_⟩
    · unfold load
      rw [if_pos hc]
      have : ((p : Int) + 1) = ((p + 1 : Nat) : Int) := by push_cast; rfl
      rw [this, hl]
      simp
    · intro j hj
      cases j with
      | zero => simp
      | succ j =>
        have := hget j (by omega)
        simp only [List.getD_cons_succ]
        rw [this]
        congr 1
        omega

theorem store_spec (v : List Byte) (m : List Byte) (p : Nat) (h : p + v.length ≤ m.length) :
    ∃ m', store m (p : Int) v = Except.ok m' ∧ m'.length = m.length ∧
      ∀ i, m'.getD i 0 = if p ≤ i ∧ i < p + v.length then v.getD (i - p) 0 else m.getD i 0 := by
  induction v generalizing m p with
  | nil =>
    refine ⟨m, rfl, rfl, fun i => ?_⟩
    rw [if_neg (by simp only [List.length_nil]; omega)]
  | cons a vs ih =>
    simp only [List.length_cons] at h
    obtain ⟨m', hm', hlen, hget⟩ := ih (m.set p a) (p + 1) (by simp; omega)
    have hc : (0 : Int) ≤ (p : Int) ∧ (p : Int) < (m.length : Int) := by omega
    refine ⟨m', ?_, by simpa using hlen, ?_⟩
    · unfold store
      rw [if_pos hc]
      have : ((p : Int) + 1) = ((p + 1 : Nat) : Int) := by push_cast; rfl
      rw [this]
      simpa using hm'
    · intro i
      rw [hget i, getD_set_eq m p i a (by omega)]
      simp only [List.length_cons]
      by_cases h1 : i = p
      · subst h1
        simp
      · by_cases h2 : p + 1 ≤ i ∧ i < p + 1 + vs.length
        · have h3 : p ≤ i ∧ i < p + (vs.length + 1) := by omega
          rw [if_pos h2, if_pos h3]
          have : i - p = (i - (p + 1)) + 1 := by omega
          rw [this, List.getD_cons_succ]
        · have h3 : ¬ (p ≤ i ∧ i < p + (vs.length + 1)) := by omega
          rw [if_neg h2, if_neg h3, if_neg h1]

theorem swapObj_spec (k : Nat) (m : List Byte) (p0 p1 : Nat)
    (h0 : p0 + k ≤ m.length) (h1 : p1 + k ≤ m.length)
    (hd : p0 + k ≤ p1 ∨ p1 + k ≤ p0) :
    ∃ m', swapObj k m (p0 : Int) (p1 : Int) = Except.ok m' ∧ Swapped k p0 p1 m m' := by
  obtain ⟨tmp, htmp, htl, htg⟩ := load_spec k m p0 h0
  obtain ⟨b, hb, hbl, hbg⟩ := load_spec k m p1 h1
  obtain ⟨m1, hm1, hl1, hg1⟩ := store_spec b m p0 (by omega)
  obtain ⟨m2, hm2, hl2, hg2⟩ := store_spec tmp m1 p1 (by omega)
  refine ⟨m2, ?_, by omega, ?_⟩
  · unfold swapObj
    simp only [htmp, hb, hm1, hm2]
  · intro i
    rw [hg2 i, hg1 i, htl, hbl]
    by_cases c1 : p1 ≤ i ∧ i < p1 + k
    · have c0 : ¬ (p0 ≤ i ∧ i < p0 + k) := by omega
      rw [if_pos c1, if_neg c0, if_pos c1, htg _ (by omega)]
      congr 1
      omega
    · rw [if_neg c1, if_neg c1]
      by_cases c0 : p0 ≤ i ∧ i < p0 + k
      · rw [if_pos c0, if_pos c0, hbg _ (by omega)]
        congr 1
        omega
      · rw [if_neg c0, if_neg c0]

theorem Swapped_succ (k p0 p1 : Nat) (m m1 m2 : List Byte)
    (hd : p0 + (k + 1) ≤ p1 ∨ p1 + (k + 1) ≤ p0)
    (s1 : Swapped k p0 p1 m m1) (s2 : Swapped 1 (p0 + k) (p1 + k) m1 m2) :
    Swapped (k + 1) p0 p1 m m2 := by
  obtain ⟨l1, g1⟩ := s1
  obtain ⟨l2, g2⟩ := s2
  refine ⟨by omega, fun i => ?_⟩
  rw [g2 i]
  split_ifs <;> rw [g1] <;> split_ifs <;>
    first
    | rfl
    | (exfalso; omega)
    | (congr 1; omega)

theorem SwapPixel_spec (N : Nat) (hN : N = 8 ∨ N = 16 ∨ N = 24 ∨ N = 32)
    (m : List Byte) (p0 p1 : Nat)
    (h0 : p0 + N / 8 ≤ m.length) (h1 : p1 + N / 8 ≤ m.length)
    (hd : p0 + N / 8 ≤ p1 ∨ p1 + N / 8 ≤ p0) :
    ∃ m', SwapPixel N m (p0 : Int) (p1 : Int) = Except.ok m' ∧ Swapped (N / 8) p0 p1 m m' := by
  rcases hN with rfl | rfl | rfl | rfl
  · simpa [SwapPixel] using swapObj_spec 1 m p0 p1 h0 h1 hd
  · simpa [SwapPixel] using swapObj_spec 2 m p0 p1 h0 h1 hd
  · norm_num at h0 h1 hd
    obtain ⟨m1, e1, s1⟩ := swapObj_spec 1 m p0 p1 (by omega) (by omega) (by omega)
    obtain ⟨m2, e2, s2⟩ := swapObj_spec 1 m1 (p0 + 1) (p1 + 1)
      (by rw [s1.1]; omega) (by rw [s1.1]; omega) (by omega)
    obtain ⟨m3, e3, s3⟩ := swapObj_spec 1 m2 (p0 + 2) (p1 + 2)
      (by rw [s2.1, s1.1]; omega) (by rw [s2.1, s1.1]; omega) (by omega)
    refine ⟨m3, ?_, Swapped_succ 2 p0 p1 m m2 m3 (by omega)
      (Swapped_succ 1 p0 p1 m m1 m2 (by omega) s1 s2) s3⟩
    have c1 : ((p0 : Int) + 1) = ((p0 + 1 : Nat) : Int) := by push_cast; rfl
    have c2 : ((p1 : Int) + 1) = ((p1 + 1 : Nat) : Int) := by push_cast; rfl
    have c3 : ((p0 : Int) + 2) = ((p0 + 2 : Nat) : Int) := by push_cast; rfl
    have c4 : ((p1 : Int) + 2) = ((p1 + 2 : Nat) : Int) := by push_cast; rfl
    simp only [SwapPixel, e1, c1, c2, c3, c4, e2, e3]
    simp
  · simpa [SwapPixel] using swapObj_spec 4 m p0 p1 h0 h1 hd

/-! ## Pixel slots

`ReorderN< N >` advances its pointers by `N` bytes per pixel and
`SwapPixel< N >` exchanges `N / 8` bytes.  A *slot* is a run of `N` bytes at
an offset that is a multiple of `N`; the reorderer permutes the first
`N / 8` bytes of the slots and leaves the other bytes alone. -/

theorem Moved_id (N k : Nat) (m : List Byte) : Moved N k (fun s => s) m m :=
  ⟨rfl, fun s r _ => by simp⟩

theorem Moved_comp (N k : Nat) (π σ : Nat → Nat) (m m1 m2 : List Byte)
    (h1 : Moved N k π m m1) (h2 : Moved N k σ m1 m2) :
    Moved N k (fun s => π (σ s)) m m2 := by
  refine ⟨h2.1.trans h1.1, fun s r hr => ?_⟩
  rw [h2.2 s r hr, h1.2 _ r hr]
  by_cases hk : r < k
  · simp only [if_pos hk]
  · simp only [if_neg hk]

theorem Moved_congr (N k : Nat) (π σ : Nat → Nat) (m m' : List Byte)
    (h : ∀ s, π s = σ s) (h1 : Moved N k π m m') : Moved N k σ m m' := by
  have : π = σ := funext h
  rw [← this]
  exact h1

theorem getD_ext (m1 m2 : List Byte) (hl : m1.length = m2.length)
    (h : ∀ i, m1.getD i 0 = m2.getD i 0) : m1 = m2 := by
  apply List.ext_getElem hl
  intro i h1 h2
  have := h i
  simpa [List.getD_eq_getElem?_getD, List.getElem?_eq_getElem h1,
    List.getElem?_eq_getElem h2] using this

theorem Moved_unique (N k : Nat) (hN : 0 < N) (π : Nat → Nat) (m m1 m2 : List Byte)
    (h1 : Moved N k π m m1) (h2 : Moved N k π m m2) : m1 = m2 := by
  apply getD_ext m1 m2 (h1.1.trans h2.1.symm)
  intro i
  have hi : i = i / N * N + i % N := by
    rw [Nat.mul_comm]; exact (Nat.div_add_mod i N).symm
  rw [hi, h1.2 _ _ (Nat.mod_lt i hN), h2.2 _ _ (Nat.mod_lt i hN)]

theorem slot_sep (a b N k : Nat) (h : a < b) (hk : k ≤ N) : a * N + k ≤ b * N := by
  have h1 : (a + 1) * N ≤ b * N := Nat.mul_le_mul_right N h
  rw [Nat.succ_mul] at h1
  omega

theorem Swapped_Moved (N k a b : Nat) (hk : k ≤ N) (hab : a ≠ b) (m m' : List Byte)
    (h : Swapped k (a * N) (b * N) m m') : Moved N k (swapSlot a b) m m' := by
  refine ⟨h.1, fun s r hr => ?_⟩
  rw [h.2]
  have sa : s < a → s * N + N ≤ a * N := fun hs => slot_sep s a N N hs (le_refl N)
  have as : a < s → a * N + N ≤ s * N := fun hs => slot_sep a s N N hs (le_refl N)
  have sb : s < b → s * N + N ≤ b * N := fun hs => slot_sep s b N N hs (le_refl N)
  have bs : b < s → b * N + N ≤ s * N := fun hs => slot_sep b s N N hs (le_refl N)
  unfold swapSlot
  by_cases hsa : s = a
  · subst hsa
    by_cases hrk : r < k
    · rw [if_pos (by omega), if_pos hrk, if_pos rfl]
      congr 1
      omega
    · rcases Nat.lt_or_gt_of_ne hab with h' | h'
      · have := sb h'
        rw [if_neg (by omega), if_neg (by omega), if_neg hrk]
      · have := bs h'
        rw [if_neg (by omega), if_neg (by omega), if_neg hrk]
  · by_cases hsb : s = b
    · subst hsb
      by_cases hrk : r < k
      · rcases Nat.lt_or_gt_of_ne hab with h' | h'
        · have := as h'
          rw [if_neg (by omega), if_pos (by omega), if_pos hrk, if_neg hsa, if_pos rfl]
          congr 1
          omega
        · have := sa h'
          rw [if_neg (by omega), if_pos (by omega), if_pos hrk, if_neg hsa, if_pos rfl]
          congr 1
          omega
      · rcases Nat.lt_or_gt_of_ne hab with h' | h'
        · have := as h'
          rw [if_neg (by omega), if_neg (by omega), if_neg hrk]
        · have := sa h'
          rw [if_neg (by omega), if_neg (by omega), if_neg hrk]
    · have e : (if r < k then (if s = a then b else if s = b then a else s) else s) = s := by
        rw [if_neg hsa, if_neg hsb]; split_ifs <;> rfl
      rw [e]
      rcases Nat.lt_or_gt_of_ne hsa with h1 | h1 <;> rcases Nat.lt_or_gt_of_ne hsb with h2 | h2
      · have := sa h1; have := sb h2
        rw [if_neg (by omega), if_neg (by omega)]
      · have := sa h1; have := bs h2
        rw [if_neg (by omega), if_neg (by omega)]
      · have := as h1; have := sb h2
        rw [if_neg (by omega), if_neg (by omega)]
      · have := as h1; have := bs h2
        rw [if_neg (by omega), if_neg (by omega)]

/-- One `SwapPixel< N >` on two distinct slots inside the buffer. -/
theorem SwapPixel_slots (N : Nat) (hN : N = 8 ∨ N = 16 ∨ N = 24 ∨ N = 32)
    (m : List Byte) (a b : Nat) (hab : a ≠ b)
    (ha : a * N + N / 8 ≤ m.length) (hb : b * N + N / 8 ≤ m.length) :
    ∃ m', SwapPixel N m ((a * N : Nat) : Int) ((b * N : Nat) : Int) = Except.ok m' ∧
      Moved N (N / 8) (swapSlot a b) m m' := by
  have hk : N / 8 ≤ N := Nat.div_le_self N 8
  have hd : a * N + N / 8 ≤ b * N ∨ b * N + N / 8 ≤ a * N := by
    rcases Nat.lt_or_gt_of_ne hab with h | h
    · exact Or.inl (slot_sep a b N _ h hk)
    · exact Or.inr (slot_sep b a N _ h hk)
  obtain ⟨m', e, s⟩ := SwapPixel_spec N hN m (a * N) (b * N) ha hb hd
  exact ⟨m', e, Swapped_Moved N _ a b hk hab m m' s⟩

/-! ## The inner loops -/

/-- The loop `SwapPixel< N >( p0, p1 ); p0 += N; p1 -= N` run `c` times
from the slots `a` and `b`: the `c` slots from `a` upwards are exchanged
with the `c` slots from `b` downwards. -/
theorem SwapH_inner_spec (N : Nat) (hN : N = 8 ∨ N = 16 ∨ N = 24 ∨ N = 32) (c : Nat) :
    ∀ (a b : Nat) (m : List Byte), a + 2 * c ≤ b + 1 →
      (0 < c → b * N + N / 8 ≤ m.length) →
      ∃ m', SwapH.inner N c m ((a * N : Nat) : Int) ((b * N : Nat) : Int) = Except.ok m' ∧
        Moved N (N / 8) (reflTwo c a b) m m' := by
  have hk : N / 8 ≤ N := Nat.div_le_self N 8
  induction c with
  | zero =>
    intro a b m _ _
    refine ⟨m, rfl, Moved_congr N _ _ _ m m (fun s => ?_) (Moved_id N _ m)⟩
    unfold reflTwo
    rw [if_neg (by omega)]
  | succ c ih =>
    intro a b m hab hlen
    have hb := hlen (Nat.succ_pos c)
    obtain ⟨b', rfl⟩ : ∃ b', b = b' + 1 := ⟨b - 1, by omega⟩
    have hsep := slot_sep a (b' + 1) N N (by omega) (le_refl N)
    have hb2 : b' * N + N ≤ (b' + 1) * N := slot_sep b' (b' + 1) N N (by omega) (le_refl N)
    obtain ⟨m1, e1, s1⟩ := SwapPixel_slots N hN m a (b' + 1) (by omega) (by omega) hb
    obtain ⟨m', e2, s2⟩ := ih (a + 1) b' m1 (by omega) (fun _ => by rw [s1.1]; omega)
    refine ⟨m', ?_, Moved_congr N _ _ _ m m' (fun s => ?_) (Moved_comp N _ _ _ m m1 m' s1 s2)⟩
    · have c0 : (((a * N : Nat) : Int) + (N : Int)) = (((a + 1) * N : Nat) : Int) := by
        push_cast; ring
      have c1 : ((((b' + 1) * N : Nat) : Int) - (N : Int)) = ((b' * N : Nat) : Int) := by
        push_cast; ring
      unfold SwapH.inner
      simp only [e1, c0, c1, e2]
    · unfold reflTwo swapSlot
      split_ifs <;> omega

/-- The loop `SwapPixel< N >( p0, p1 ); p0 += N; p1 += N` run `c` times
from the slots `a` and `b`: the `c` slots from `a` upwards are exchanged
with the `c` slots from `b` upwards. -/
theorem SwapV_inner_spec (N : Nat) (hN : N = 8 ∨ N = 16 ∨ N = 24 ∨ N = 32) (c : Nat) :
    ∀ (a b : Nat) (m : List Byte), a + c ≤ b →
      (∀ j, j < c → (b + j) * N + N / 8 ≤ m.length) →
      ∃ m', SwapV.inner N c m ((a * N : Nat) : Int) ((b * N : Nat) : Int) = Except.ok m' ∧
        Moved N (N / 8) (shiftTwo c a b) m m' := by
  have hk : N / 8 ≤ N := Nat.div_le_self N 8
  induction c with
  | zero =>
    intro a b m _ _
    refine ⟨m, rfl, Moved_congr N _ _ _ m m (fun s => ?_) (Moved_id N _ m)⟩
    unfold shiftTwo
    rw [if_neg (by omega), if_neg (by omega)]
  | succ c ih =>
    intro a b m hab hlen
    have hb := hlen 0 (Nat.succ_pos c)
    rw [Nat.add_zero] at hb
    have hsep := slot_sep a b N N (by omega) (le_refl N)
    obtain ⟨m1, e1, s1⟩ := SwapPixel_slots N hN m a b (by omega) (by omega) hb
    obtain ⟨m', e2, s2⟩ := ih (a + 1) (b + 1) m1 (by omega) (fun j hj => by
      rw [s1.1]
      have := hlen (j + 1) (by omega)
      rwa [show b + 1 + j = b + (j + 1) by omega])
    refine ⟨m', ?_, Moved_congr N _ _ _ m m' (fun s => ?_) (Moved_comp N _ _ _ m m1 m' s1 s2)⟩
    · have c0 : (((a * N : Nat) : Int) + (N : Int)) = (((a + 1) * N : Nat) : Int) := by
        push_cast; ring
      have c1 : (((b * N : Nat) : Int) + (N : Int)) = (((b + 1) * N : Nat) : Int) := by
        push_cast; ring
      unfold SwapV.inner
      simp only [e1, c0, c1, e2]
    · unfold shiftTwo swapSlot
      split_ifs <;> omega

/-! ## The row loops -/

theorem tdiv_two_toNat (n : Nat) : (Int.tdiv (n : Int) 2).toNat = n / 2 := by
  rw [Int.tdiv_eq_ediv (by omega) (by omega)]
  omega

theorem SwapH_inner_zero (N : Nat) (m : List Byte) (p0 p1 : Int) :
    SwapH.inner N 0 m p0 p1 = Except.ok m := rfl

theorem SwapV_inner_zero (N : Nat) (m : List Byte) (p0 p1 : Int) :
    SwapV.inner N 0 m p0 p1 = Except.ok m := rfl

theorem reflTwo_zero (a b s : Nat) : reflTwo 0 a b s = s := by
  unfold reflTwo
  rw [if_neg (by omega)]

theorem shiftTwo_zero (a b s : Nat) : shiftTwo 0 a b s = s := by
  unfold shiftTwo
  rw [if_neg (by omega), if_neg (by omega)]

theorem SwapH_outer_spec (N : Nat) (hN : N = 8 ∨ N = 16 ∨ N = 24 ∨ N = 32) (w c : Nat) :
    ∀ (i : Nat) (m : List Byte), (i + c) * w * N ≤ m.length →
      ∃ m', SwapH.outer N (w : Int) ((w : Int) * (N : Int)) c (i : Int) m = Except.ok m' ∧
        Moved N (N / 8) (hRows w c i) m m' := by
  have hk : N / 8 ≤ N := Nat.div_le_self N 8
  induction c with
  | zero => intro i m _; exact ⟨m, rfl, Moved_id N _ m⟩
  | succ c ih =>
    intro i m hlen
    have hi1 : ((i : Int) + 1) = ((i + 1 : Nat) : Int) := by push_cast; rfl
    have hrow : (i + 1) * w * N ≤ (i + (c + 1)) * w * N :=
      Nat.mul_le_mul_right N (Nat.mul_le_mul_right w (by omega))
    have hinner : ∃ m1, SwapH.inner N (Int.tdiv (w : Int) 2).toNat m
        ((i : Int) * ((w : Int) * (N : Int)))
        ((i : Int) * ((w : Int) * (N : Int)) + ((w : Int) * (N : Int) - (N : Int)))
          = Except.ok m1 ∧
        Moved N (N / 8) (reflTwo (w / 2) (i * w) (i * w + w - 1)) m m1 := by
      rw [tdiv_two_toNat]
      by_cases hw : w / 2 = 0
      · rw [hw]
        refine ⟨m, rfl, Moved_congr N _ _ _ m m (fun s => ?_) (Moved_id N _ m)⟩
        rw [reflTwo_zero]
      · obtain ⟨w', rfl⟩ : ∃ w', w = w' + 1 := ⟨w - 1, by omega⟩
        have c0 : ((i : Int) * (((w' + 1 : Nat) : Int) * (N : Int)))
            = ((i * (w' + 1) * N : Nat) : Int) := by push_cast; ring
        have c1 : ((i : Int) * (((w' + 1 : Nat) : Int) * (N : Int)) +
            ((((w' + 1 : Nat) : Int)) * (N : Int) - (N : Int)))
            = (((i * (w' + 1) + (w' + 1) - 1) * N : Nat) : Int) := by
          have : i * (w' + 1) + (w' + 1) - 1 = i * (w' + 1) + w' := by omega
          rw [this]; push_cast; ring
        rw [c1, c0]
        apply SwapH_inner_spec N hN
        · omega
        · intro _
          have e1 : (i * (w' + 1) + (w' + 1) - 1) * N + N ≤ (i * (w' + 1) + (w' + 1)) * N :=
            slot_sep _ _ N N (by omega) (le_refl N)
          have e2 : (i * (w' + 1) + (w' + 1)) * N = (i + 1) * (w' + 1) * N := by ring
          omega
    obtain ⟨m1, e1, s1⟩ := hinner
    obtain ⟨m', e2, s2⟩ := ih (i + 1) m1 (by
      rw [s1.1, show i + 1 + c = i + (c + 1) by omega]; exact hlen)
    refine ⟨m', ?_, Moved_congr N _ _ _ m m' (fun s => rfl)
      (Moved_comp N _ (reflTwo (w / 2) (i * w) (i * w + w - 1)) (hRows w c (i + 1)) m m1 m'
        s1 s2)⟩
    unfold SwapH.outer
    simp only [e1, hi1, e2]

theorem SwapV_outer_spec (N : Nat) (hN : N = 8 ∨ N = 16 ∨ N = 24 ∨ N = 32) (w h c : Nat) :
    ∀ (i : Nat) (m : List Byte), i + c ≤ h / 2 → h * w * N ≤ m.length →
      ∃ m', SwapV.outer N (w : Int) (h : Int) ((w : Int) * (N : Int)) c (i : Int) m
          = Except.ok m' ∧
        Moved N (N / 8) (vRows w h c i) m m' := by
  have hk : N / 8 ≤ N := Nat.div_le_self N 8
  induction c with
  | zero => intro i m _ _; exact ⟨m, rfl, Moved_id N _ m⟩
  | succ c ih =>
    intro i m hic hlen
    have hi1 : ((i : Int) + 1) = ((i + 1 : Nat) : Int) := by push_cast; rfl
    obtain ⟨d, hd⟩ : ∃ d, h = d + 1 + i := ⟨h - 1 - i, by omega⟩
    have hdi : h - 1 - i = d := by omega
    have c0 : ((i : Int) * ((w : Int) * (N : Int))) = ((i * w * N : Nat) : Int) := by
      push_cast; ring
    have c1 : (((h : Int) - 1 - (i : Int)) * ((w : Int) * (N : Int)))
        = ((d * w * N : Nat) : Int) := by
      rw [hd]; push_cast; ring
    have hinner : ∃ m1, SwapV.inner N (w : Int).toNat m
        ((i : Int) * ((w : Int) * (N : Int)))
        (((h : Int) - 1 - (i : Int)) * ((w : Int) * (N : Int))) = Except.ok m1 ∧
        Moved N (N / 8) (shiftTwo w (i * w) ((h - 1 - i) * w)) m m1 := by
      rw [c1, c0, hdi, Int.toNat_ofNat]
      apply SwapV_inner_spec N hN
      · have : (i + 1) * w ≤ d * w := Nat.mul_le_mul_right w (by omega)
        rw [Nat.succ_mul] at this
        exact this
      · intro j hj
        have e1 : (d * w + j) * N + N ≤ (d * w + w) * N :=
          slot_sep _ _ N N (by omega) (le_refl N)
        have e2 : (d * w + w) * N = (d + 1) * w * N := by ring
        have e3 : (d + 1) * w * N ≤ h * w * N :=
          Nat.mul_le_mul_right N (Nat.mul_le_mul_right w (by omega))
        omega
    obtain ⟨m1, e1, s1⟩ := hinner
    obtain ⟨m', e2, s2⟩ := ih (i + 1) m1 (by omega) (by rw [s1.1]; exact hlen)
    refine ⟨m', ?_, Moved_congr N _ _ _ m m' (fun s => rfl)
      (Moved_comp N _ (shiftTwo w (i * w) ((h - 1 - i) * w)) (vRows w h c (i + 1)) m m1 m'
        s1 s2)⟩
    unfold SwapV.outer
    simp only [e1, hi1, e2]

/-! ## The slot permutations in row and column coordinates -/

theorem row_lt (r r' w col : Nat) (h : r < r') (hc : col < w) : r * w + col < r' * w := by
  have := slot_sep r r' w (col + 1) h (by omega)
  omega

/-- Reflection of row `i` acts on the slot at `(r, col)`. -/
theorem reflTwo_row (w i r col : Nat) (hc : col < w) :
    reflTwo (w / 2) (i * w) (i * w + w - 1) (r * w + col) =
      r * w + (if r = i then w - 1 - col else col) := by
  rcases Nat.lt_trichotomy r i with h | h | h
  · have := row_lt r i w col h hc
    rw [if_neg (by omega)]
    unfold reflTwo
    rw [if_neg (by omega)]
  · subst h
    rw [if_pos rfl]
    unfold reflTwo
    split_ifs <;> omega
  · have := row_lt i r w 0 h (by omega)
    have e := slot_sep i r w w h (le_refl w)
    rw [if_neg (by omega)]
    unfold reflTwo
    rw [if_neg (by omega)]

/-- Exchange of the rows `i < d` acts on the slot at `(r, col)`. -/
theorem shiftTwo_rows (w i d r col : Nat) (hid : i < d) (hc : col < w) :
    shiftTwo w (i * w) (d * w) (r * w + col) = swapSlot i d r * w + col := by
  have hidw := slot_sep i d w w hid (le_refl w)
  unfold swapSlot
  by_cases h1 : r = i
  · subst h1
    rw [if_pos rfl]
    unfold shiftTwo
    rw [if_pos (by omega)]
    omega
  · rw [if_neg h1]
    by_cases h2 : r = d
    · subst h2
      rw [if_pos rfl]
      unfold shiftTwo
      rw [if_neg (by omega), if_pos (by omega)]
      omega
    · rw [if_neg h2]
      unfold shiftTwo
      rcases Nat.lt_or_gt_of_ne h1 with a | a <;> rcases Nat.lt_or_gt_of_ne h2 with b | b
      · have := row_lt r i w col a hc
        have := row_lt r d w col b hc
        rw [if_neg (by omega), if_neg (by omega)]
      · have := row_lt r i w col a hc
        have := slot_sep d r w w b (le_refl w)
        rw [if_neg (by omega), if_neg (by omega)]
      · have := slot_sep i r w w a (le_refl w)
        have := row_lt r d w col b hc
        rw [if_neg (by omega), if_neg (by omega)]
      · have := slot_sep i r w w a (le_refl w)
        have := slot_sep d r w w b (le_refl w)
        rw [if_neg (by omega), if_neg (by omega)]

theorem hRows_coord (w c : Nat) :
    ∀ (i row col : Nat), col < w →
      hRows w c i (row * w + col) =
        row * w + (if i ≤ row ∧ row < i + c then w - 1 - col else col) := by
  induction c with
  | zero =>
    intro i row col _
    rw [if_neg (by omega)]
    rfl
  | succ c ih =>
    intro i row col hc
    show reflTwo (w / 2) (i * w) (i * w + w - 1) (hRows w c (i + 1) (row * w + col)) = _
    rw [ih (i + 1) row col hc]
    by_cases h1 : i + 1 ≤ row ∧ row < i + 1 + c
    · rw [if_pos h1, reflTwo_row w i row _ (by omega), if_neg (by omega), if_pos (by omega)]
    · rw [if_neg h1, reflTwo_row w i row col hc]
      by_cases h2 : row = i
      · rw [if_pos h2, if_pos (by omega)]
      · rw [if_neg h2, if_neg (by omega)]

theorem vRows_coord (w h c : Nat) :
    ∀ (i row col : Nat), col < w → i + c ≤ h / 2 →
      vRows w h c i (row * w + col) =
        (if (i ≤ row ∧ row < i + c) ∨ (h ≤ row + i + c ∧ row + i < h) then h - 1 - row
          else row) * w + col := by
  induction c with
  | zero =>
    intro i row col _ _
    rw [if_neg (by omega)]
    rfl
  | succ c ih =>
    intro i row col hc hic
    show shiftTwo w (i * w) ((h - 1 - i) * w) (vRows w h c (i + 1) (row * w + col)) = _
    rw [ih (i + 1) row col hc (by omega), shiftTwo_rows w i (h - 1 - i) _ col (by omega) hc]
    congr 1
    congr 1
    unfold swapSlot
    split_ifs <;> omega

theorem hRows_width_zero (c : Nat) : ∀ (i s : Nat), hRows 0 c i s = s := by
  induction c with
  | zero => intro i s; rfl
  | succ c ih =>
    intro i s
    show reflTwo (0 / 2) (i * 0) (i * 0 + 0 - 1) (hRows 0 c (i + 1) s) = s
    rw [ih, Nat.zero_div, reflTwo_zero]

theorem vRows_width_zero (h c : Nat) : ∀ (i s : Nat), vRows 0 h c i s = s := by
  induction c with
  | zero => intro i s; rfl
  | succ c ih =>
    intro i s
    show shiftTwo 0 (i * 0) ((h - 1 - i) * 0) (vRows 0 h c (i + 1) s) = s
    rw [ih, shiftTwo_zero]

theorem opPerm_coord (w h x : Nat) (hx : x < 4) (row col : Nat) (hc : col < w) :
    opPerm w h x (row * w + col) = rowOf h x row * w + colOf w h x row col := by
  interval_cases x
  · simp [opPerm, rowOf, colOf]
  · show hRows w h 0 (row * w + col) = _
    rw [hRows_coord w h 0 row col hc]
    have r1 : rowOf h 1 row = row := by
      unfold rowOf; rw [if_neg (by omega)]
    have r2 : colOf w h 1 row col = if row < h then w - 1 - col else col := by
      unfold colOf; simp
    rw [r1, r2]
    congr 1
    split_ifs <;> omega
  · show vRows w h (h / 2) 0 (row * w + col) = _
    rw [vRows_coord w h (h / 2) 0 row col hc (by omega)]
    have r1 : rowOf h 2 row = if row < h then h - 1 - row else row := by
      unfold rowOf; simp
    have r2 : colOf w h 2 row col = col := by
      unfold colOf; simp
    rw [r1, r2]
    congr 1
    congr 1
    split_ifs <;> omega
  · show reflTwo (w * h / 2) 0 (w * h - 1) (row * w + col) = _
    by_cases hr : row < h
    · obtain ⟨d, hd⟩ : ∃ d, h = d + 1 + row := ⟨h - 1 - row, by omega⟩
      have e1 : w * h = d * w + w + row * w := by rw [hd]; ring
      have r1 : rowOf h 3 row = d := by
        unfold rowOf; rw [if_pos ⟨by omega, hr⟩]; omega
      have r2 : colOf w h 3 row col = w - 1 - col := by
        unfold colOf; simp [hr]
      rw [r1, r2, e1]
      unfold reflTwo
      split_ifs <;> omega
    · have e1 : h * w ≤ row * w := Nat.mul_le_mul_right w (by omega)
      have e2 : w * h = h * w := Nat.mul_comm w h
      have r1 : rowOf h 3 row = row := by
        unfold rowOf; rw [if_neg (fun hh => hr hh.2)]
      have r2 : colOf w h 3 row col = col := by
        unfold colOf; rw [if_neg (fun hh => hr hh.2)]
      rw [r1, r2, e2]
      unfold reflTwo
      rw [if_neg (by omega)]

theorem opPerm_width_zero (h x s : Nat) : opPerm 0 h x s = s := by
  unfold opPerm
  split
  · rfl
  · exact hRows_width_zero h 0 s
  · exact vRows_width_zero h (h / 2) 0 s
  · rw [Nat.zero_mul, Nat.zero_div, reflTwo_zero]

/-- The operations compose as `ReorderN< N >` selects them: `x` followed by
`y` moves every slot as `x ^ y` does. -/
theorem opPerm_comp (w h x y : Nat) (hx : x < 4) (hy : y < 4) (s : Nat) :
    opPerm w h x (opPerm w h y s) = opPerm w h (x ^^^ y) s := by
  rcases Nat.eq_zero_or_pos w with hw | hw
  · subst hw
    rw [opPerm_width_zero, opPerm_width_zero, opPerm_width_zero]
  · have hs : s = s / w * w + s % w := by
      rw [Nat.mul_comm]; exact (Nat.div_add_mod s w).symm
    have hc : s % w < w := Nat.mod_lt s hw
    generalize s / w = row at hs
    generalize s % w = col at hs hc
    subst hs
    have hz : x ^^^ y < 4 := by
      interval_cases x <;> interval_cases y <;> decide
    rw [opPerm_coord w h y hy row col hc, opPerm_coord w h (x ^^^ y) hz row col hc,
      opPerm_coord w h x hx _ _ (by unfold colOf; split_ifs <;> omega)]
    unfold rowOf colOf
    interval_cases x <;> interval_cases y <;> simp <;> split_ifs <;> first | rfl | omega | (congr 1; omega) | (congr 2 <;> omega)

/-! ## The three reorderings on a buffer that holds every slot -/

theorem SwapH_spec (N : Nat) (hN : N = 8 ∨ N = 16 ∨ N = 24 ∨ N = 32) (w h : Nat)
    (m : List Byte) (hlen : w * h * N ≤ m.length) :
    ∃ m', SwapH N m (w : Int) (h : Int) = Except.ok m' ∧ Moved N (N / 8) (opPerm w h 1) m m' := by
  have e : (0 + h) * w * N = w * h * N := by ring
  obtain ⟨m', e1, s1⟩ := SwapH_outer_spec N hN w h 0 m (by rw [e]; exact hlen)
  refine ⟨m', ?_, s1⟩
  unfold SwapH
  simpa using e1

theorem SwapV_spec (N : Nat) (hN : N = 8 ∨ N = 16 ∨ N = 24 ∨ N = 32) (w h : Nat)
    (m : List Byte) (hlen : w * h * N ≤ m.length) :
    ∃ m', SwapV N m (w : Int) (h : Int) = Except.ok m' ∧ Moved N (N / 8) (opPerm w h 2) m m' := by
  have e : h * w * N = w * h * N := by ring
  obtain ⟨m', e1, s1⟩ := SwapV_outer_spec N hN w h (h / 2) 0 m (by omega) (by rw [e]; exact hlen)
  refine ⟨m', ?_, s1⟩
  unfold SwapV
  rw [tdiv_two_toNat]
  simpa using e1

theorem SwapHV_spec (N : Nat) (hN : N = 8 ∨ N = 16 ∨ N = 24 ∨ N = 32) (w h : Nat)
    (m : List Byte) (hlen : w * h * N ≤ m.length) :
    ∃ m', SwapHV N m (w : Int) (h : Int) = Except.ok m' ∧
      Moved N (N / 8) (opPerm w h 3) m m' := by
  have hk : N / 8 ≤ N := Nat.div_le_self N 8
  have hc : (Int.tdiv ((w : Int) * (h : Int)) 2).toNat = w * h / 2 := by
    rw [← Nat.cast_mul, tdiv_two_toNat]
  unfold SwapHV
  simp only [hc]
  show ∃ m', _ = Except.ok m' ∧ Moved N (N / 8) (reflTwo (w * h / 2) 0 (w * h - 1)) m m'
  by_cases h0 : w * h / 2 = 0
  · rw [h0]
    refine ⟨m, rfl, Moved_congr N _ _ _ m m (fun s => ?_) (Moved_id N _ m)⟩
    rw [reflTwo_zero]
  · obtain ⟨n, hn⟩ : ∃ n, w * h = n + 1 := ⟨w * h - 1, by omega⟩
    have c0 : (0 : Int) = ((0 * N : Nat) : Int) := by simp
    have c1 : (((w : Int) * (h : Int) - 1) * (N : Int)) = (((w * h - 1) * N : Nat) : Int) := by
      rw [hn]
      have : ((w : Int) * (h : Int)) = ((n + 1 : Nat) : Int) := by rw [← hn]; push_cast; rfl
      rw [this]
      push_cast
      simp
    rw [c1, c0]
    apply SwapH_inner_spec N hN
    · omega
    · intro _
      have e1 : (w * h - 1) * N + N ≤ (w * h) * N := slot_sep _ _ N N (by omega) (le_refl N)
      omega

/-! ## Bytes beyond the accessed part of the buffer

A run that stays inside the buffer is the same run on any longer buffer. -/

theorem load_append (k : Nat) (m ext : List Byte) :
    ∀ (p : Int) (l : List Byte), load k m p = Except.ok l →
      load k (m ++ ext) p = Except.ok l := by
  induction k with
  | zero => intro p l h; exact h
  | succ k ih =>
    intro p l h
    unfold load at h ⊢
    by_cases hc : 0 ≤ p ∧ p < (m.length : Int)
    · rw [if_pos hc] at h
      have hc2 : 0 ≤ p ∧ p < ((m ++ ext).length : Int) := by
        rw [List.length_append]; push_cast; omega
      rw [if_pos hc2]
      cases h1 : load k m (p + 1) with
      | error e => rw [h1] at h; cases h
      | ok bs =>
        rw [h1] at h
        rw [ih (p + 1) bs h1]
        have : (m ++ ext).getD p.toNat 0 = m.getD p.toNat 0 :=
          List.getD_append m ext 0 p.toNat (by omega)
        rw [this]
        exact h
    · rw [if_neg hc] at h
      cases h

theorem store_append (v : List Byte) (ext : List Byte) :
    ∀ (m : List Byte) (p : Int) (m' : List Byte), store m p v = Except.ok m' →
      store (m ++ ext) p v = Except.ok (m' ++ ext) := by
  induction v with
  | nil =>
    intro m p m' h
    unfold store at h ⊢
    cases h
    rfl
  | cons a vs ih =>
    intro m p m' h
    unfold store at h ⊢
    by_cases hc : 0 ≤ p ∧ p < (m.length : Int)
    · rw [if_pos hc] at h
      have hc2 : 0 ≤ p ∧ p < ((m ++ ext).length : Int) := by
        rw [List.length_append]; push_cast; omega
      rw [if_pos hc2]
      have : (m ++ ext).set p.toNat a = m.set p.toNat a ++ ext := by
        rw [List.set_append, if_pos (by omega)]
      rw [this]
      exact ih _ _ _ h
    · rw [if_neg hc] at h
      cases h

theorem swapObj_append (k : Nat) (m ext : List Byte) (p0 p1 : Int) (m' : List Byte)
    (h : swapObj k m p0 p1 = Except.ok m') :
    swapObj k (m ++ ext) p0 p1 = Except.ok (m' ++ ext) := by
  unfold swapObj at h ⊢
  cases h1 : load k m p0 with
  | error e => rw [h1] at h; cases h
  | ok tmp =>
    rw [h1] at h
    simp only [] at h
    cases h2 : load k m p1 with
    | error e => rw [h2] at h; cases h
    | ok b =>
      rw [h2] at h
      simp only [] at h
      cases h3 : store m p0 b with
      | error e => rw [h3] at h; cases h
      | ok m1 =>
        rw [h3] at h
        simp only [] at h
        rw [load_append k m ext p0 tmp h1, load_append k m ext p1 b h2]
        simp only []
        rw [store_append b ext m p0 m1 h3]
        simp only []
        exact store_append tmp ext m1 p1 m' h

theorem SwapPixel_loop_append (ext : List Byte) (p0 p1 : Int) (c : Nat) :
    ∀ (i : Int) (m m' : List Byte), SwapPixel.loop c i m p0 p1 = Except.ok m' →
      SwapPixel.loop c i (m ++ ext) p0 p1 = Except.ok (m' ++ ext) := by
  induction c with
  | zero =>
    intro i m m' h
    unfold SwapPixel.loop at h ⊢
    cases h
    rfl
  | succ c ih =>
    intro i m m' h
    unfold SwapPixel.loop at h ⊢
    cases h1 : swapObj 1 m (p0 + i) (p1 + i) with
    | error e => rw [h1] at h; cases h
    | ok m1 =>
      rw [h1] at h
      simp only [] at h
      rw [swapObj_append 1 m ext _ _ m1 h1]
      simp only []
      exact ih _ _ _ h

theorem SwapPixel_append (N : Nat) (m ext : List Byte) (p0 p1 : Int) (m' : List Byte)
    (h : SwapPixel N m p0 p1 = Except.ok m') :
    SwapPixel N (m ++ ext) p0 p1 = Except.ok (m' ++ ext) := by
  unfold SwapPixel at h ⊢
  split_ifs at h ⊢
  · exact swapObj_append 1 m ext p0 p1 m' h
  · exact swapObj_append 2 m ext p0 p1 m' h
  · cases h1 : swapObj 1 m p0 p1 with
    | error e => rw [h1] at h; cases h
    | ok m1 =>
      rw [h1] at h
      simp only [] at h
      cases h2 : swapObj 1 m1 (p0 + 1) (p1 + 1) with
      | error e => rw [h2] at h; cases h
      | ok m2 =>
        rw [h2] at h
        simp only [] at h
        rw [swapObj_append 1 m ext p0 p1 m1 h1]
        simp only []
        rw [swapObj_append 1 m1 ext _ _ m2 h2]
        simp only []
        exact swapObj_append 1 m2 ext _ _ m' h
  · exact swapObj_append 4 m ext p0 p1 m' h
  · exact SwapPixel_loop_append ext p0 p1 _ 0 m m' h

theorem SwapH_inner_append (N : Nat) (ext : List Byte) (c : Nat) :
    ∀ (m : List Byte) (p0 p1 : Int) (m' : List Byte),
      SwapH.inner N c m p0 p1 = Except.ok m' →
      SwapH.inner N c (m ++ ext) p0 p1 = Except.ok (m' ++ ext) := by
  induction c with
  | zero =>
    intro m p0 p1 m' h
    unfold SwapH.inner at h ⊢
    cases h
    rfl
  | succ c ih =>
    intro m p0 p1 m' h
    unfold SwapH.inner at h ⊢
    cases h1 : SwapPixel N m p0 p1 with
    | error e => rw [h1] at h; cases h
    | ok m1 =>
      rw [h1] at h
      simp only [] at h
      rw [SwapPixel_append N m ext p0 p1 m1 h1]
      simp only []
      exact ih _ _ _ _ h

theorem SwapV_inner_append (N : Nat) (ext : List Byte) (c : Nat) :
    ∀ (m : List Byte) (p0 p1 : Int) (m' : List Byte),
      SwapV.inner N c m p0 p1 = Except.ok m' →
      SwapV.inner N c (m ++ ext) p0 p1 = Except.ok (m' ++ ext) := by
  induction c with
  | zero =>
    intro m p0 p1 m' h
    unfold SwapV.inner at h ⊢
    cases h
    rfl
  | succ c ih =>
    intro m p0 p1 m' h
    unfold SwapV.inner at h ⊢
    cases h1 : SwapPixel N m p0 p1 with
    | error e => rw [h1] at h; cases h
    | ok m1 =>
      rw [h1] at h
      simp only [] at h
      rw [SwapPixel_append N m ext p0 p1 m1 h1]
      simp only []
      exact ih _ _ _ _ h

theorem SwapH_outer_append (N : Nat) (w rowSize : Int) (ext : List Byte) (c : Nat) :
    ∀ (i : Int) (m m' : List Byte), SwapH.outer N w rowSize c i m = Except.ok m' →
      SwapH.outer N w rowSize c i (m ++ ext) = Except.ok (m' ++ ext) := by
  induction c with
  | zero =>
    intro i m m' h
    unfold SwapH.outer at h ⊢
    cases h
    rfl
  | succ c ih =>
    intro i m m' h
    unfold SwapH.outer at h ⊢
    simp only [] at h ⊢
    cases h1 : SwapH.inner N (Int.tdiv w 2).toNat m (i * rowSize)
        (i * rowSize + (rowSize - (N : Int))) with
    | error e => rw [h1] at h; cases h
    | ok m1 =>
      rw [h1] at h
      simp only [] at h
      rw [SwapH_inner_append N ext _ m _ _ m1 h1]
      simp only []
      exact ih _ _ _ h

theorem SwapV_outer_append (N : Nat) (w h rowSize : Int) (ext : List Byte) (c : Nat) :
    ∀ (i : Int) (m m' : List Byte), SwapV.outer N w h rowSize c i m = Except.ok m' →
      SwapV.outer N w h rowSize c i (m ++ ext) = Except.ok (m' ++ ext) := by
  induction c with
  | zero =>
    intro i m m' hh
    unfold SwapV.outer at hh ⊢
    cases hh
    rfl
  | succ c ih =>
    intro i m m' hh
    unfold SwapV.outer at hh ⊢
    simp only [] at hh ⊢
    cases h1 : SwapV.inner N w.toNat m (i * rowSize) ((h - 1 - i) * rowSize) with
    | error e => rw [h1] at hh; cases hh
    | ok m1 =>
      rw [h1] at hh
      simp only [] at hh
      rw [SwapV_inner_append N ext _ m _ _ m1 h1]
      simp only []
      exact ih _ _ _ hh

theorem ReorderN_append (N : Nat) (m ext : List Byte) (w h : Int) (A B : PixelOrder)
    (m' : List Byte) (hh : ReorderN N m w h A B = Except.ok m') :
    ReorderN N (m ++ ext) w h A B = Except.ok (m' ++ ext) := by
  unfold ReorderN at hh ⊢
  split at hh
  · cases hh; rfl
  · exact SwapH_outer_append N w _ ext _ 0 m m' hh
  · exact SwapV_outer_append N w h _ ext _ 0 m m' hh
  · exact SwapH_inner_append N ext _ m _ _ m' hh
  · cases hh

/-! ## Dimensions that are not both non-negative -/

theorem tdiv_two_toNat_nonpos (x : Int) (hx : x ≤ 0) : (Int.tdiv x 2).toNat = 0 := by
  have : Int.tdiv x 2 ≤ 0 := by
    have h1 : Int.tdiv (-x) 2 = -(Int.tdiv x 2) := Int.neg_tdiv x 2
    have h2 : 0 ≤ Int.tdiv (-x) 2 := Int.tdiv_nonneg (by omega) (by omega)
    omega
  omega

theorem SwapH_outer_idle (N : Nat) (w rowSize : Int) (hw : (Int.tdiv w 2).toNat = 0) (c : Nat) :
    ∀ (i : Int) (m : List Byte), SwapH.outer N w rowSize c i m = Except.ok m := by
  induction c with
  | zero => intro i m; rfl
  | succ c ih =>
    intro i m
    unfold SwapH.outer
    simp only [hw, SwapH_inner_zero]
    exact ih _ _

theorem SwapV_outer_idle (N : Nat) (w h rowSize : Int) (hw : w.toNat = 0) (c : Nat) :
    ∀ (i : Int) (m : List Byte), SwapV.outer N w h rowSize c i m = Except.ok m := by
  induction c with
  | zero => intro i m; rfl
  | succ c ih =>
    intro i m
    unfold SwapV.outer
    simp only [hw, SwapV_inner_zero]
    exact ih _ _

theorem mul_nonpos_of_mixed (w h : Int) (h1 : w < 0 ∨ h < 0) (h2 : 0 ≤ w ∨ 0 ≤ h) :
    w * h ≤ 0 := by
  rcases h1 with a | a <;> rcases h2 with b | b
  · omega
  · exact Int.mul_nonpos_of_nonpos_of_nonneg (by omega) b
  · exact Int.mul_nonpos_of_nonneg_of_nonpos b (by omega)
  · omega

theorem ReorderN_idle (N : Nat) (m : List Byte) (w h : Int) (h1 : w < 0 ∨ h < 0)
    (h2 : 0 ≤ w ∨ 0 ≤ h) (A B : PixelOrder) :
    ReorderN N m w h A B = Except.ok m := by
  have hH : SwapH N m w h = Except.ok m := by
    unfold SwapH
    rcases h1 with a | a
    · exact SwapH_outer_idle N w _ (tdiv_two_toNat_nonpos w (by omega)) _ _ _
    · have : h.toNat = 0 := by omega
      rw [this]
      rfl
  have hV : SwapV N m w h = Except.ok m := by
    unfold SwapV
    rcases h1 with a | a
    · exact SwapV_outer_idle N w h _ (by omega) _ _ _
    · rw [tdiv_two_toNat_nonpos h (by omega)]
      rfl
  have hHV : SwapHV N m w h = Except.ok m := by
    unfold SwapHV
    simp only [tdiv_two_toNat_nonpos (w * h) (mul_nonpos_of_mixed w h h1 h2), SwapH_inner_zero]
  cases A <;> cases B <;> first | rfl | exact hH | exact hV | exact hHV

/-! ## Composition of reorderings -/

theorem ReorderN_spec (N : Nat) (hN : N = 8 ∨ N = 16 ∨ N = 24 ∨ N = 32) (w h : Nat)
    (m : List Byte) (hlen : w * h * N ≤ m.length) (A B : PixelOrder) :
    ∃ m', ReorderN N m (w : Int) (h : Int) A B = Except.ok m' ∧
      Moved N (N / 8) (opPerm w h (A.toNat ^^^ B.toNat)) m m' := by
  cases A <;> cases B <;>
    first
    | exact ⟨m, rfl, Moved_id N _ m⟩
    | exact SwapH_spec N hN w h m hlen
    | exact SwapV_spec N hN w h m hlen
    | exact SwapHV_spec N hN w h m hlen

theorem toNat_xor_lt (A B : PixelOrder) : A.toNat ^^^ B.toNat < 4 := by
  cases A <;> cases B <;> decide

theorem toNat_xor_xor (A B C : PixelOrder) :
    (A.toNat ^^^ B.toNat) ^^^ (B.toNat ^^^ C.toNat) = A.toNat ^^^ C.toNat := by
  cases A <;> cases B <;> cases C <;> rfl

/-- On a buffer that holds all `w * h` slots, reordering from `A` to `B`
and then from `B` to `C` runs without fault and gives the buffer that
reordering from `A` to `C` gives. -/
theorem ReorderN_compose_total (N : Nat) (hN : N = 8 ∨ N = 16 ∨ N = 24 ∨ N = 32) (w h : Nat)
    (m : List Byte) (hlen : w * h * N ≤ m.length) (A B C : PixelOrder) :
    ∃ b1 b2, ReorderN N m (w : Int) (h : Int) A B = Except.ok b1 ∧
      ReorderN N b1 (w : Int) (h : Int) B C = Except.ok b2 ∧
      ReorderN N m (w : Int) (h : Int) A C = Except.ok b2 := by
  have hN0 : 0 < N := by rcases hN with rfl | rfl | rfl | rfl <;> decide
  obtain ⟨b1, e1, s1⟩ := ReorderN_spec N hN w h m hlen A B
  obtain ⟨b2, e2, s2⟩ := ReorderN_spec N hN w h b1 (by rw [s1.1]; exact hlen) B C
  obtain ⟨b3, e3, s3⟩ := ReorderN_spec N hN w h m hlen A C
  have s12 := Moved_comp N _ _ _ m b1 b2 s1 s2
  have s12' : Moved N (N / 8) (opPerm w h (A.toNat ^^^ C.toNat)) m b2 := by
    refine Moved_congr N _ _ _ m b2 (fun s => ?_) s12
    rw [opPerm_comp w h _ _ (toNat_xor_lt A B) (toNat_xor_lt B C), toNat_xor_xor]
  have hb : b2 = b3 := Moved_unique N _ hN0 _ m b2 b3 s12' s3
  exact ⟨b1, b2, e1, e2, hb ▸ e3⟩

/-- Whenever the three runs stay inside the buffer, the two-step
reordering and the direct one give the same buffer. -/
theorem ReorderN_compose_inRange (N : Nat) (hN : N = 8 ∨ N = 16 ∨ N = 24 ∨ N = 32) (w h : Int)
    (hwh : 0 ≤ w ∨ 0 ≤ h) (m : List Byte) (A B C : PixelOrder) (b1 b2 b3 : List Byte)
    (e1 : ReorderN N m w h A B = Except.ok b1) (e2 : ReorderN N b1 w h B C = Except.ok b2)
    (e3 : ReorderN N m w h A C = Except.ok b3) : b2 = b3 := by
  by_cases hneg : w < 0 ∨ h < 0
  · rw [ReorderN_idle N m w h hneg hwh] at e1 e3
    rw [ReorderN_idle N b1 w h hneg hwh] at e2
    cases e1; cases e2; cases e3
    rfl
  · obtain ⟨w', rfl⟩ : ∃ w' : Nat, w = (w' : Int) := ⟨w.toNat, by omega⟩
    obtain ⟨h', rfl⟩ : ∃ h' : Nat, h = (h' : Int) := ⟨h.toNat, by omega⟩
    obtain ⟨c1, c2, f1, f2, f3⟩ := ReorderN_compose_total N hN w' h'
      (m ++ List.replicate (w' * h' * N) 0)
      (by rw [List.length_append, List.length_replicate]; omega) A B C
    rw [ReorderN_append N m _ _ _ A B b1 e1] at f1
    cases f1
    rw [ReorderN_append N b1 _ _ _ B C b2 e2] at f2
    cases f2
    rw [ReorderN_append N m _ _ _ A C b3 e3] at f3
    have := Except.ok.inj f3
    exact (List.append_cancel_right this).symm

/-! ## Composition of reorderings (C20) -/

/-- C20, counterexample. With width `-1` and height `-2` (both negative,
`w * h = 2`), depth 8 and a 9-byte buffer, no access is out of range;
reordering from bottom-left to bottom-right (`SwapH`) and then from
bottom-right to top-right (`SwapV`) leaves the buffer as it is, because
neither loop runs, while reordering from bottom-left to top-right
(`SwapHV`) exchanges the bytes at offsets 0 and 8. -/
theorem C20_negative_dimensions :
    ReorderN 8 [1, 2, 3, 4, 5, 6, 7, 8, 9] (-1) (-2)
        PixelOrder.ORDER_BOTTOMLEFT PixelOrder.ORDER_BOTTOMRIGHT =
      Except.ok [1, 2, 3, 4, 5, 6, 7, 8, 9] ∧
    ReorderN 8 [1, 2, 3, 4, 5, 6, 7, 8, 9] (-1) (-2)
        PixelOrder.ORDER_BOTTOMRIGHT PixelOrder.ORDER_TOPRIGHT =
      Except.ok [1, 2, 3, 4, 5, 6, 7, 8, 9] ∧
    ReorderN 8 [1, 2, 3, 4, 5, 6, 7, 8, 9] (-1) (-2)
        PixelOrder.ORDER_BOTTOMLEFT PixelOrder.ORDER_TOPRIGHT =
      Except.ok [9, 2, 3, 4, 5, 6, 7, 8, 1] :=
  ⟨rfl, rfl, rfl⟩

/-- C20, amended. For every depth `N` in {8, 16, 24, 32}, every width and
height that are not both negative, every three orders `A`, `B`, `C` and
every buffer: whenever `ReorderN< N >` from `A` to `B`, then from `B` to
`C` on the result, and from `A` to `C` on the original buffer all run
without an access out of range, the two-step result equals the direct one;
on a buffer of at least `w * h * N` bytes (`N` bytes being the stride of the
loops) all three do run and agree; and in particular `SwapH` followed by
`SwapV`, and `SwapV` followed by `SwapH`, give what `SwapHV` gives. -/
theorem C20_reorder_composes (N : Nat) (hN : N = 8 ∨ N = 16 ∨ N = 24 ∨ N = 32)
    (w h : Int) (hwh : 0 ≤ w ∨ 0 ≤ h) (A B C : PixelOrder) (pData : List Byte) :
    (∀ b1 b2 b3, ReorderN N pData w h A B = Except.ok b1 →
      ReorderN N b1 w h B C = Except.ok b2 →
      ReorderN N pData w h A C = Except.ok b3 → b2 = b3) ∧
    (w.toNat * h.toNat * N ≤ pData.length →
      ∃ b1 b2, ReorderN N pData w h A B = Except.ok b1 ∧
        ReorderN N b1 w h B C = Except.ok b2 ∧
        ReorderN N pData w h A C = Except.ok b2) ∧
    (∀ b1 b2 b3, SwapH N pData w h = Except.ok b1 → SwapV N b1 w h = Except.ok b2 →
      SwapHV N pData w h = Except.ok b3 → b2 = b3) ∧
    (∀ b1 b2 b3, SwapV N pData w h = Except.ok b1 → SwapH N b1 w h = Except.ok b2 →
      SwapHV N pData w h = Except.ok b3 → b2 = b3) := by
  refine ⟨fun b1 b2 b3 => ReorderN_compose_inRange N hN w h hwh pData A B C b1 b2 b3, ?_,
    fun b1 b2 b3 e1 e2 e3 => ?_, fun b1 b2 b3 e1 e2 e3 => ?_⟩
  · intro hlen
    by_cases hneg : w < 0 ∨ h < 0
    · exact ⟨pData, pData, ReorderN_idle N pData w h hneg hwh A B,
        ReorderN_idle N pData w h hneg hwh B C, ReorderN_idle N pData w h hneg hwh A C⟩
    · obtain ⟨w', rfl⟩ : ∃ w' : Nat, w = (w' : Int) := ⟨w.toNat, by omega⟩
      obtain ⟨h', rfl⟩ : ∃ h' : Nat, h = (h' : Int) := ⟨h.toNat, by omega⟩
      simp only [Int.toNat_ofNat] at hlen
      exact ReorderN_compose_total N hN w' h' pData hlen A B C
  · exact ReorderN_compose_inRange N hN w h hwh pData PixelOrder.ORDER_BOTTOMLEFT
      PixelOrder.ORDER_BOTTOMRIGHT PixelOrder.ORDER_TOPRIGHT b1 b2 b3 e1 e2 e3
  · exact ReorderN_compose_inRange N hN w h hwh pData PixelOrder.ORDER_BOTTOMLEFT
      PixelOrder.ORDER_TOPLEFT PixelOrder.ORDER_TOPRIGHT b1 b2 b3 e1 e2 e3

/-- C20, amended, at a concrete buffer: a 2x2 image of depth 8 in a buffer
of `2 * 2 * 8 = 32` bytes, reordered from bottom-left to bottom-right and
then to top-right, and directly from bottom-left to top-right. -/
theorem C20_reorder_composes_witness :
    ∃ b1 b2,
      ReorderN 8 (pixels16 ++ pixels16) 2 2
        PixelOrder.ORDER_BOTTOMLEFT PixelOrder.ORDER_BOTTOMRIGHT = Except.ok b1 ∧
      ReorderN 8 b1 2 2 PixelOrder.ORDER_BOTTOMRIGHT PixelOrder.ORDER_TOPRIGHT = Except.ok b2 ∧
      ReorderN 8 (pixels16 ++ pixels16) 2 2
        PixelOrder.ORDER_BOTTOMLEFT PixelOrder.ORDER_TOPRIGHT = Except.ok b2 :=
  (C20_reorder_composes 8 (Or.inl rfl) 2 2 (Or.inl (by decide))
    PixelOrder.ORDER_BOTTOMLEFT PixelOrder.ORDER_BOTTOMRIGHT PixelOrder.ORDER_TOPRIGHT
    (pixels16 ++ pixels16)).2.1 (by decide)

end TGA
